import Mathlib

/-!
Verification of the parallel module loader (src/compiler/load/src/file.rs).

The development shallowly embeds the coordinator state machine (`update`),
the task builder (`build_parse_and_constrain_task`), the work-stealing
`find_task` routine, header assembly (`send_header`, `parse_src`), and the
coordinator receive loop of `load_deps`, and proves the spec's claims about
them.  Machine maps (`MutMap`) are modelled as association lists, sets
(`MutSet`) as duplicate-free lists, and opaque payloads (source bytes,
constraints, variable stores, subs) as natural numbers.  Rust panics
(`todo!`, `unreachable!`, `expect`, `unwrap`) are modelled as an explicit
`panicked` outcome.
-/

namespace RocLoad

/-- Dense module identifier, issued by the shared module-id intern table. -/
abbrev ModuleId := Nat

/-- Dense per-module identifier for an interned local name. -/
abbrev IdentId := Nat

/-- Source region; opaque payload. -/
abbrev Region := Nat

/-- Global name of a declared or exposed value: pair of module and ident id. -/
structure Symbol where
  module : ModuleId
  ident : IdentId
deriving DecidableEq

/-- Association-list lookup, modelling `HashMap::get`. -/
def lookupM {α : Type} : List (Nat × α) → Nat → Option α
  | [], _ => none
  | (k, v) :: rest, key => if k = key then some v else lookupM rest key

/-- Association-list insert, modelling `HashMap::insert` (replaces for lookup). -/
def insertM {α : Type} (m : List (Nat × α)) (k : Nat) (v : α) : List (Nat × α) :=
  (k, v) :: m

/-- Association-list key removal, modelling `HashMap::remove`'s effect. -/
def eraseM {α : Type} : List (Nat × α) → Nat → List (Nat × α)
  | [], _ => []
  | (a, v) :: rest, k => if a = k then eraseM rest k else (a, v) :: eraseM rest k

/-- Set insert, modelling `HashSet::insert` (no duplicates). -/
def insSet {α : Type} [DecidableEq α] (s : List α) (x : α) : List α :=
  if x ∈ s then s else x :: s

/-- Build a set from a list by repeated insertion, modelling a `HashSet` fill loop. -/
def mkSet {α : Type} [DecidableEq α] (l : List α) : List α :=
  l.foldl insSet []

/-- Index of a name in an intern table, if present. -/
def findIdx (names : List String) (name : String) : Option Nat :=
  match names with
  | [] => none
  | n :: rest => if n = name then some 0 else (findIdx rest name).map (· + 1)

/-- Per-module ident intern table (`IdentIds`): names indexed by `IdentId`. -/
structure IdentIds where
  names : List String
deriving DecidableEq

/-- Modelling `IdentIds::default`. -/
def IdentIds.default : IdentIds := ⟨[]⟩

/-- Modelling `IdentIds::add`: always appends, returning the fresh id. -/
def IdentIds.add (ids : IdentIds) (name : String) : IdentId × IdentIds :=
  (ids.names.length, ⟨ids.names ++ [name]⟩)

/-- Modelling `IdentIds::get_or_insert`: reuse an existing id or append. -/
def IdentIds.getOrInsert (ids : IdentIds) (name : String) : IdentId × IdentIds :=
  match findIdx ids.names name with
  | some i => (i, ids)
  | none => ids.add name

/-- The shared module-id intern table (`ModuleIds`): names indexed by `ModuleId`. -/
def ModuleIdsGetOrInsert (mids : List String) (name : String) : ModuleId × List String :=
  match findIdx mids name with
  | some i => (i, mids)
  | none => (mids.length, mids ++ [name])

/-- Module header produced by `send_header` (struct `ModuleHeader`). -/
structure ModuleHeader where
  moduleId : ModuleId
  moduleName : String
  exposedIdentIds : IdentIds
  depsByName : List (String × ModuleId)
  importedModules : List ModuleId
  exposes : List Symbol
  exposedImports : List (String × Symbol × Region)
  src : Nat
deriving DecidableEq

/-- Solver output for one module (struct `SolvedModule`); payloads opaque. -/
structure SolvedModule where
  problems : List Nat
  exposedVarsBySymbol : List (Symbol × Nat)
  solvedTypes : Nat
  aliases : Nat
deriving DecidableEq

/-- Canonicalized module (struct `Module`); only the id matters to the coordinator. -/
structure ModuleCan where
  moduleId : ModuleId
  payload : Nat
deriving DecidableEq

/-- Messages on the coordinator channel (enum `Msg`).  `subsUnique` models
whether the `Arc<Solved<Subs>>` is uniquely held (for `Arc::try_unwrap`). -/
inductive Msg where
  | header (h : ModuleHeader)
  | constrained (module : ModuleCan) (declarations : Nat) (importedModules : List ModuleId)
      (src : Nat) (constraint : Nat) (identIds : IdentIds) (problems : List Nat)
      (varStore : Nat)
  | solved (src : Nat) (moduleId : ModuleId) (solvedModule : SolvedModule)
      (subsUnique : Bool)
  | finished (solvedSubs : Nat) (exposedVarsBySymbol : List (Symbol × Nat)) (src : Nat)
deriving DecidableEq

/-- Builtin-mode selector (enum `Mode` from `roc_builtins::std`). -/
inductive Mode where
  | standard
  | uniqueness
deriving DecidableEq

/-- Tasks on the work-stealing queue (enum `BuildTask`). -/
inductive BuildTask where
  | loadModule (moduleName : String)
  | parseAndConstrain (header : ModuleHeader) (mode : Mode) (moduleIds : List String)
      (depIdents : List (ModuleId × IdentIds)) (exposedSymbols : List Symbol)
deriving DecidableEq

/-- Fatal load errors (enum `LoadingProblem`). -/
inductive LoadingProblem where
  | fileProblem (filename : String) (errKind : Nat)
  | parsingFailed (filename : String) (fail : Nat)
  | msgChannelDied
  | errJoiningWorkerThreads
  | triedToImportAppModule
deriving DecidableEq

/-- Published solved types for one module (enum `ExposedModuleTypes`). -/
inductive ExposedModuleTypes where
  | valid (solvedTypes : Nat) (aliases : Nat)
deriving DecidableEq

/-- Observable side effects of one coordinator transition, in order:
task pushes onto the global injector, `TaskAdded` sends (one per worker
listener), and sends on the coordinator message channel (with whether the
send was delivered, since the `Solved` arm ignores the send result). -/
inductive Event where
  | pushTask (t : BuildTask)
  | taskAdded
  | sentFinished (delivered : Bool) (m : Msg)
deriving DecidableEq

/-- Coordinator state (struct `State`); mirrors the Rust field set. -/
structure State where
  rootId : ModuleId
  srcDir : Nat
  exposedTypes : List (ModuleId × ExposedModuleTypes)
  canProblems : List Nat
  headersParsed : List ModuleId
  typeProblems : List Nat
  constrainedIdentIds : List (ModuleId × IdentIds)
  arcModules : List String
  identIdsByModule : List (ModuleId × IdentIds)
  loadingStarted : List ModuleId
  declarationsById : List (ModuleId × Nat)
  exposedSymbolsByModule : List (ModuleId × List Symbol)
  waitingForHeaders : List (ModuleId × List ModuleId)
  headerListeners : List (ModuleId × List ModuleId)
  unparsedModules : List (ModuleId × ModuleHeader)
  waitingForSolve : List (ModuleId × List ModuleId)
  solveListeners : List (ModuleId × List ModuleId)
  unsolvedModules : List (ModuleId × (ModuleCan × Nat × List ModuleId × Nat × Nat))
deriving DecidableEq

/-- Standard-library provider (struct `StdLib`): the builtin mode plus the
seed map produced by `IdentIds::exposed_builtins` (external crate, opaque). -/
structure StdLib where
  mode : Mode
  builtins : List (ModuleId × IdentIds)
deriving DecidableEq

/-- Runtime environment of a transition: number of worker listeners, whether
the worker signal channels are still open, and whether the coordinator
message receiver is still alive. -/
structure Env where
  numWorkers : Nat
  workersAlive : Bool
  msgTxAlive : Bool
deriving DecidableEq

/-- Outcome of a coordinator transition: normal return, a fatal
`LoadingProblem` (the `Err` path), or a Rust panic (`todo!`, `unreachable!`,
`expect`, `unwrap`). -/
inductive UpdateResult (α : Type) where
  | ok (a : α)
  | err (e : LoadingProblem)
  | panicked (msg : String)
deriving DecidableEq

/-- Modelling the `dep_idents` fill loop of `build_parse_and_constrain_task`:
clone each dep's ident table out of the shared map, starting from the
builtins seed; `none` models the `unwrap` panic on a missing dep entry. -/
def gatherDepIdents (shared : List (ModuleId × IdentIds))
    (builtins : List (ModuleId × IdentIds)) :
    List ModuleId → Option (List (ModuleId × IdentIds))
  | [] => some builtins
  | d :: rest =>
    match lookupM shared d, gatherDepIdents shared builtins rest with
    | some ids, some acc => some (insertM acc d ids)
    | _, _ => none

/-- Embeds `build_parse_and_constrain_task`: snapshot the shared tables,
record `waiting_for_solve[module_id]` (deps not yet in `exposed_types`), and
return the `ParseAndConstrain` task together with the updated barrier map.
`none` models the panic on a missing dep ident table. -/
def buildParseAndConstrainTask (stdlib : StdLib) (header : ModuleHeader)
    (arcModules : List String) (identIdsByModule : List (ModuleId × IdentIds))
    (exposedTypes : List (ModuleId × ExposedModuleTypes))
    (exposedSymbols : List Symbol)
    (waitingForSolve : List (ModuleId × List ModuleId)) :
    Option (BuildTask × List (ModuleId × List ModuleId)) :=
  match gatherDepIdents identIdsByModule stdlib.builtins (header.depsByName.map (·.2)) with
  | none => none
  | some depIdents =>
    some (.parseAndConstrain header stdlib.mode arcModules depIdents exposedSymbols,
          insertM waitingForSolve header.moduleId
            (mkSet ((header.depsByName.map (·.2)).filter
              (fun d => lookupM exposedTypes d = none))))

/-- One iteration of the `Header` arm's listener-dispatch loop: remove the
newly parsed module from the listener's header barrier and, if the barrier
empties, un-park the listener, push its `ParseAndConstrain` task, and send
`TaskAdded` to every worker (an unreachable worker channel is the
`MsgChannelDied` error path). -/
def processOneListener (env : Env) (stdlib : StdLib) (st : State)
    (home l : ModuleId) : UpdateResult (State × List Event) :=
  match lookupM st.waitingForHeaders l with
  | none => .panicked "Unable to find module ID in waiting_for_headers"
  | some waiting =>
    if (waiting.filter (· ≠ home)).isEmpty then
      match lookupM st.unparsedModules l with
      | none => .panicked "Could not find listener ID in unparsed_modules"
      | some hdr =>
        match lookupM st.exposedSymbolsByModule l with
        | none => .panicked "Could not find listener ID in exposed_symbols_by_module"
        | some exSyms =>
          match buildParseAndConstrainTask stdlib hdr st.arcModules
              st.identIdsByModule st.exposedTypes exSyms st.waitingForSolve with
          | none => .panicked "ident_ids_by_module is missing a dep module"
          | some (task, wfs') =>
            if env.numWorkers ≠ 0 ∧ env.workersAlive = false then
              .err .msgChannelDied
            else
              .ok ({ st with
                waitingForHeaders :=
                  insertM st.waitingForHeaders l (waiting.filter (· ≠ home))
                unparsedModules := eraseM st.unparsedModules l
                exposedSymbolsByModule := eraseM st.exposedSymbolsByModule l
                waitingForSolve := wfs' },
                .pushTask task :: List.replicate env.numWorkers .taskAdded)
    else
      .ok ({ st with
        waitingForHeaders :=
          insertM st.waitingForHeaders l (waiting.filter (· ≠ home)) }, [])

/-- The full listener-dispatch loop of the `Header` arm. -/
def processListeners (env : Env) (stdlib : StdLib) :
    State → ModuleId → List ModuleId → UpdateResult (State × List Event)
  | st, _, [] => .ok (st, [])
  | st, home, l :: rest =>
    match processOneListener env stdlib st home l with
    | .ok (st', ev) =>
      match processListeners env stdlib st' home rest with
      | .ok (st'', ev') => .ok (st'', ev ++ ev')
      | .err e => .err e
      | .panicked m => .panicked m
    | .err e => .err e
    | .panicked m => .panicked m

/-- The `Header` arm's dep-loading loop: for each dep not yet in
`loading_started`, mark it started and push a `LoadModule` task (no
`TaskAdded` signal is sent here, matching the source). -/
def processDeps (st : State) : List (String × ModuleId) → State × List Event
  | [] => (st, [])
  | (name, depId) :: rest =>
    if depId ∈ st.loadingStarted then processDeps st rest
    else
      ((processDeps { st with loadingStarted := depId :: st.loadingStarted } rest).1,
       .pushTask (.loadModule name) ::
         (processDeps { st with loadingStarted := depId :: st.loadingStarted } rest).2)

/-- Register `home` as a header listener on every still-needed dep. -/
def registerHeaderListeners (st : State) (home : ModuleId) :
    List ModuleId → State
  | [] => st
  | d :: rest =>
    let cur := (lookupM st.headerListeners d).getD []
    registerHeaderListeners
      { st with headerListeners := insertM st.headerListeners d (cur ++ [home]) }
      home rest

/-- Register `moduleId` as a solve listener on every still-unsolved dep. -/
def registerSolveListeners (st : State) (moduleId : ModuleId) :
    List ModuleId → State
  | [] => st
  | d :: rest =>
    let cur := (lookupM st.solveListeners d).getD []
    registerSolveListeners
      { st with solveListeners := insertM st.solveListeners d (cur ++ [moduleId]) }
      moduleId rest

/-- The dep ids of a header whose headers are still needed, as computed by the
`Header` arm after recording this header as parsed. -/
def headersNeededOf (st : State) (h : ModuleHeader) : List ModuleId :=
  mkSet ((h.depsByName.map (·.2)).filter
    (fun d => d ∉ insSet st.headersParsed h.moduleId))

/-- The prefix of the `Header(h)` arm before the listener dispatch: record
the header as parsed, record its exposed-symbol set, and take this module's
header-listener entry out of `header_listeners`. -/
def headerPre (st : State) (h : ModuleHeader) : State :=
  { st with
    headersParsed := insSet st.headersParsed h.moduleId
    exposedSymbolsByModule :=
      insertM st.exposedSymbolsByModule h.moduleId (mkSet h.exposes)
    headerListeners := eraseM st.headerListeners h.moduleId }

/-- Embeds the `Header(h)` arm of `update`. -/
def updateHeader (env : Env) (stdlib : StdLib) (st : State) (h : ModuleHeader) :
    UpdateResult (State × List Event) :=
  match processListeners env stdlib (headerPre st h) h.moduleId
      ((lookupM st.headerListeners h.moduleId).getD []) with
  | .ok (st3, evL) =>
    if (headersNeededOf st h).isEmpty then
      match lookupM (processDeps st3 h.depsByName).1.exposedSymbolsByModule h.moduleId with
      | none => .panicked "Could not find listener ID in exposed_symbols_by_module"
      | some exSyms =>
        match buildParseAndConstrainTask stdlib h
            (processDeps st3 h.depsByName).1.arcModules
            (processDeps st3 h.depsByName).1.identIdsByModule
            (processDeps st3 h.depsByName).1.exposedTypes exSyms
            (processDeps st3 h.depsByName).1.waitingForSolve with
        | none => .panicked "ident_ids_by_module is missing a dep module"
        | some (task, wfs') =>
          .ok ({ (processDeps st3 h.depsByName).1 with
              exposedSymbolsByModule :=
                eraseM (processDeps st3 h.depsByName).1.exposedSymbolsByModule h.moduleId
              waitingForSolve := wfs' },
            evL ++ (processDeps st3 h.depsByName).2 ++ [.pushTask task])
    else
      .ok ({ registerHeaderListeners
            { (processDeps st3 h.depsByName).1 with
              unparsedModules :=
                insertM (processDeps st3 h.depsByName).1.unparsedModules h.moduleId h }
            h.moduleId (headersNeededOf st h) with
          waitingForHeaders :=
            insertM (registerHeaderListeners
              { (processDeps st3 h.depsByName).1 with
                unparsedModules :=
                  insertM (processDeps st3 h.depsByName).1.unparsedModules h.moduleId h }
              h.moduleId (headersNeededOf st h)).waitingForHeaders
              h.moduleId (headersNeededOf st h) },
        evL ++ (processDeps st3 h.depsByName).2)
  | .err e => .err e
  | .panicked m => .panicked m

/-- Embeds the `Constrained` arm of `update`.  When the solve barrier is
empty the source reaches `todo!("add a task for solving this module.")`
(after the unused-import loop, whose body is also a `todo!`), so the
transition panics instead of enqueuing a solve task. -/
def updateConstrained (st : State) (module : ModuleCan) (declarations : Nat)
    (importedModules : List ModuleId) (src : Nat) (constraint : Nat)
    (identIds : IdentIds) (problems : List Nat) (varStore : Nat) :
    UpdateResult (State × List Event) :=
  match lookupM st.waitingForSolve module.moduleId with
  | none => .panicked "Could not find module ID in waiting_for_solve"
  | some waiting =>
    if (waiting.filter (fun i => lookupM st.exposedTypes i = none)).isEmpty then
      .panicked "add a task for solving this module."
    else
      .ok (registerSolveListeners
        { st with
          canProblems := st.canProblems ++ problems
          constrainedIdentIds := insertM st.constrainedIdentIds module.moduleId identIds
          waitingForSolve := insertM st.waitingForSolve module.moduleId
            (waiting.filter (fun i => lookupM st.exposedTypes i = none))
          declarationsById := insertM st.declarationsById module.moduleId declarations
          unsolvedModules := insertM st.unsolvedModules module.moduleId
            (module, src, importedModules, constraint, varStore) }
        module.moduleId (waiting.filter (fun i => lookupM st.exposedTypes i = none)), [])

/-- The `Solved` arm's listener loop: when a listener's solve barrier
empties, the source un-parks it and reaches `todo!("spawn_solve_module")`. -/
def processSolveListeners (st : State) (mid : ModuleId) :
    List ModuleId → UpdateResult (State × List Event)
  | [] => .ok (st, [])
  | l :: rest =>
    match lookupM st.waitingForSolve l with
    | none => .panicked "Unable to find module ID in waiting_for_solve"
    | some waiting =>
      if (waiting.filter (· ≠ mid)).isEmpty then
        match lookupM st.unsolvedModules l with
        | none => .panicked "Could not find listener ID in unsolved_modules"
        | some _ => .panicked "spawn_solve_module"
      else
        processSolveListeners
          { st with waitingForSolve :=
              insertM st.waitingForSolve l (waiting.filter (· ≠ mid)) }
          mid rest

/-- Embeds the `Solved` arm of `update`.  For the root, `Arc::try_unwrap`
must succeed and the `Finished` message is sent with the send result
ignored (the transition returns `ok` even if the channel is closed). -/
def updateSolved (env : Env) (st : State) (src : Nat) (mid : ModuleId)
    (sm : SolvedModule) (subsUnique : Bool) : UpdateResult (State × List Event) :=
  if mid = st.rootId then
    if subsUnique then
      .ok ({ st with typeProblems := st.typeProblems ++ sm.problems },
        [.sentFinished env.msgTxAlive (.finished 0 sm.exposedVarsBySymbol src)])
    else
      .panicked "There were still outstanding Arc references to Solved Subs"
  else
    processSolveListeners
      { st with
        typeProblems := st.typeProblems ++ sm.problems
        exposedTypes := insertM st.exposedTypes mid (.valid sm.solvedTypes sm.aliases)
        solveListeners := eraseM st.solveListeners mid }
      mid ((lookupM st.solveListeners mid).getD [])

/-- The coordinator transition function `update`.  A `Finished` message is
never passed to `update` by the receive loop; the arm is `unreachable!`. -/
def update (env : Env) (stdlib : StdLib) (st : State) (msg : Msg) :
    UpdateResult (State × List Event) :=
  match msg with
  | .header h => updateHeader env stdlib st h
  | .constrained module declarations importedModules src constraint identIds problems varStore =>
      updateConstrained st module declarations importedModules src constraint
        identIds problems varStore
  | .solved src mid sm subsUnique => updateSolved env st src mid sm subsUnique
  | .finished _ _ _ => .panicked "unreachable"

/-! The work-stealing `find_task` routine.  The `Steal` combinators are the
documented semantics of `crossbeam-deque` 0.7.3 (the external crate the
source uses): `or_else` keeps a `Retry` alive unless the fallback succeeds,
and collecting an iterator of steals returns the first `Success`, else
`Retry` if any steal retried, else `Empty`. -/

/-- Outcome of one steal operation (enum `Steal` of crossbeam-deque). -/
inductive Steal (α : Type) where
  | empty
  | success (a : α)
  | retry
deriving DecidableEq

/-- Modelling `Steal::is_retry`. -/
def Steal.isRetry {α : Type} : Steal α → Bool
  | .retry => true
  | _ => false

/-- Modelling `Steal::success`. -/
def Steal.toSuccess {α : Type} : Steal α → Option α
  | .success a => some a
  | _ => none

/-- Modelling `Steal::or_else` of crossbeam-deque 0.7.3. -/
def Steal.orElseS {α : Type} (s : Steal α) (f : Unit → Steal α) : Steal α :=
  match s with
  | .empty => f ()
  | .success a => .success a
  | .retry =>
    match f () with
    | .success a => .success a
    | _ => .retry

/-- Modelling `FromIterator<Steal<T>> for Steal<T>` of crossbeam-deque
0.7.3, as used by `stealers.iter().map(|s| s.steal()).collect()`. -/
def collectSteals {α : Type} : List (Steal α) → Steal α
  | [] => .empty
  | s :: rest =>
    match s with
    | .success a => .success a
    | .empty => collectSteals rest
    | .retry =>
      match collectSteals rest with
      | .success a => .success a
      | _ => .retry

/-- One iteration of `find_task`'s retry loop: the global queue's steal
outcome combined with the per-stealer outcomes via `or_else`/`collect`. -/
def roundOutcome {α : Type} (r : Steal α × List (Steal α)) : Steal α :=
  r.1.orElseS (fun _ => collectSteals r.2)

/-- Modelling `iter::repeat_with(..).find(|s| !s.is_retry())` over the
observed rounds: the first combined outcome that is not a retry. -/
def findFirstNonRetry {α : Type} : List (Steal α × List (Steal α)) → Option (Steal α)
  | [] => none
  | r :: rest =>
    if (roundOutcome r).isRetry then findFirstNonRetry rest else some (roundOutcome r)

/-- Embeds `find_task`.  `localPop` is the result of `local.pop()`; `rounds`
is the sequence of steal observations the retry loop makes (global outcome
paired with the per-worker stealer outcomes).  The outer `none` means every
observed round retried, in which case the source loops and makes further
observations; `some r` is the returned `Option<Task>`. -/
def findTask {α : Type} (localPop : Option α)
    (rounds : List (Steal α × List (Steal α))) : Option (Option α) :=
  match localPop with
  | some t => some (some t)
  | none => (findFirstNonRetry rounds).map (·.toSuccess)

/-! Header assembly: `send_header`, `add_exposed_to_scope`, `parse_src`. -/

/-- Whether the intern tables were passed as `MaybeShared::Shared` (every
import, and - per the `TODO FIXME` in `load` - currently also the root) or
`MaybeShared::Unique`. -/
inductive Sharedness where
  | shared
  | unique
deriving DecidableEq

/-- A parsed module header (enum `ast::Module`), after unwrapping the
whitespace carriers: name, exposed/provided names, and import entries
`(module name, exposed idents, region)`. -/
inductive HeaderAst where
  | interfaceHeader (name : String) (exposes : List String)
      (imports : List (String × List String × Region))
  | appHeader (name : String) (provides : List String)
      (imports : List (String × List String × Region))
deriving DecidableEq

/-- Embeds `add_exposed_to_scope`: each exposed ident is added to the given
ident table with `IdentIds::add` and recorded in scope with the given
module id. -/
def addExposedToScope (moduleId : ModuleId) (scope : List (String × Symbol × Region))
    (exposed : List String) (identIds : IdentIds) (region : Region) :
    List (String × Symbol × Region) × IdentIds :=
  match exposed with
  | [] => (scope, identIds)
  | name :: rest =>
    let (iid, identIds') := identIds.add name
    addExposedToScope moduleId (scope ++ [(name, ⟨moduleId, iid⟩, region)])
      rest identIds' region

/-- Result of `send_header`: the fields of the `Msg::Header` it sends plus
the updated shared intern tables. -/
structure SendHeaderOut where
  home : ModuleId
  depsByName : List (String × ModuleId)
  importedModules : List ModuleId
  exposesSyms : List Symbol
  scope : List (String × Symbol × Region)
  moduleIds : List String
  identIdsByModule : List (ModuleId × IdentIds)
deriving DecidableEq

/-- The first import loop of `send_header` (Shared branch): assign each
dep's `ModuleId`, record it in `deps_by_name` and `imported_modules`. -/
def internImports (moduleIds : List String)
    (deps : List (String × ModuleId)) (imported : List ModuleId) :
    List (String × List String × Region) →
      List String × List (String × ModuleId) × List ModuleId ×
        List (ModuleId × List String × Region)
  | [] => (moduleIds, deps, imported, [])
  | (name, exposed, region) :: rest =>
    let (depId, moduleIds') := ModuleIdsGetOrInsert moduleIds name
    let (moduleIds'', deps', imported', toExpose) :=
      internImports moduleIds' (deps ++ [(name, depId)]) (insSet imported depId) rest
    (moduleIds'', deps', imported', (depId, exposed, region) :: toExpose)

/-- The second import loop of `send_header` (Shared branch): for each import
with a non-empty exposed list, call `add_exposed_to_scope` — passing the
HOME module's ident table, exactly as the source does. -/
def exposeImports (scope : List (String × Symbol × Region)) (identIds : IdentIds) :
    List (ModuleId × List String × Region) →
      List (String × Symbol × Region) × IdentIds
  | [] => (scope, identIds)
  | (depId, exposed, region) :: rest =>
    if exposed.isEmpty then exposeImports scope identIds rest
    else
      let (scope', identIds') := addExposedToScope depId scope exposed identIds region
      exposeImports scope' identIds' rest

/-- The exposes loop of `send_header` (Shared branch): `get_or_insert` each
exposed name in the home ident table and collect `Symbol(home, id)`. -/
def internExposes (home : ModuleId) (syms : List Symbol) (identIds : IdentIds) :
    List String → List Symbol × IdentIds
  | [] => (syms, identIds)
  | name :: rest =>
    let (iid, identIds') := identIds.getOrInsert name
    internExposes home (syms ++ [⟨home, iid⟩]) identIds' rest

/-- Embeds the `MaybeShared::Shared` branch of `send_header`. -/
def sendHeaderShared (declaredName : String) (exposes : List String)
    (imports : List (String × List String × Region))
    (moduleIds : List String) (identIdsByModule : List (ModuleId × IdentIds)) :
    SendHeaderOut :=
  let (home, moduleIds1) := ModuleIdsGetOrInsert moduleIds declaredName
  let identIdsByModule1 :=
    match lookupM identIdsByModule home with
    | some _ => identIdsByModule
    | none => insertM identIdsByModule home IdentIds.default
  let identIds0 := (lookupM identIdsByModule1 home).getD IdentIds.default
  let (moduleIds2, depsByName, importedModules, toExpose) :=
    internImports moduleIds1 [] [] imports
  let (scope, identIds1) := exposeImports [] identIds0 toExpose
  let (exposesSyms, identIds2) := internExposes home [] identIds1 exposes
  { home := home
    depsByName := depsByName
    importedModules := importedModules
    exposesSyms := exposesSyms
    scope := scope
    moduleIds := moduleIds2
    identIdsByModule := insertM identIdsByModule1 home identIds2 }

/-- The import loop of the `MaybeShared::Unique` branch of `send_header`:
here a FRESH ident table is created per dep, filled by
`add_exposed_to_scope`, and stored under the dep's id. -/
def uniqueImports (moduleIds : List String) (deps : List (String × ModuleId))
    (imported : List ModuleId) (scope : List (String × Symbol × Region))
    (iibm : List (ModuleId × IdentIds)) :
    List (String × List String × Region) →
      List String × List (String × ModuleId) × List ModuleId ×
        List (String × Symbol × Region) × List (ModuleId × IdentIds)
  | [] => (moduleIds, deps, imported, scope, iibm)
  | (name, exposed, region) :: rest =>
    let (depId, moduleIds') := ModuleIdsGetOrInsert moduleIds name
    let (scope', iibm') :=
      if exposed.isEmpty then (scope, iibm)
      else
        let (scope', depIds) := addExposedToScope depId scope exposed IdentIds.default region
        (scope', insertM iibm depId depIds)
    uniqueImports moduleIds' (deps ++ [(name, depId)]) (insSet imported depId)
      scope' iibm' rest

/-- The exposes loop of the Unique branch: `IdentIds::add` into a fresh home
table. -/
def uniqueExposes (home : ModuleId) (syms : List Symbol) (identIds : IdentIds) :
    List String → List Symbol × IdentIds
  | [] => (syms, identIds)
  | name :: rest =>
    let (iid, identIds') := identIds.add name
    uniqueExposes home (syms ++ [⟨home, iid⟩]) identIds' rest

/-- Embeds the `MaybeShared::Unique` branch of `send_header`. -/
def sendHeaderUnique (declaredName : String) (exposes : List String)
    (imports : List (String × List String × Region))
    (moduleIds : List String) (identIdsByModule : List (ModuleId × IdentIds)) :
    SendHeaderOut :=
  let (home, moduleIds1) := ModuleIdsGetOrInsert moduleIds declaredName
  let (moduleIds2, depsByName, importedModules, scope, iibm1) :=
    uniqueImports moduleIds1 [] [] [] identIdsByModule imports
  let (exposesSyms, identIds) := uniqueExposes home [] IdentIds.default exposes
  { home := home
    depsByName := depsByName
    importedModules := importedModules
    exposesSyms := exposesSyms
    scope := scope
    moduleIds := moduleIds2
    identIdsByModule := insertM iibm1 home identIds }

/-- Embeds `parse_src`: an `Interface` header is sent for any module; an
`App` header is sent only when the tables are `Unique`, and is the fatal
`TriedToImportAppModule` error when they are `Shared`; a parse failure is
`ParsingFailed`.  `parsed = none` models a header parse failure. -/
def parseSrc (filename : String) (shared? : Sharedness) (parsed : Option HeaderAst)
    (moduleIds : List String) (identIdsByModule : List (ModuleId × IdentIds)) :
    Except LoadingProblem SendHeaderOut :=
  match parsed with
  | none => .error (.parsingFailed filename 0)
  | some (.interfaceHeader name exposes imports) =>
    match shared? with
    | .shared => .ok (sendHeaderShared name exposes imports moduleIds identIdsByModule)
    | .unique => .ok (sendHeaderUnique name exposes imports moduleIds identIdsByModule)
  | some (.appHeader name provides imports) =>
    match shared? with
    | .shared => .error .triedToImportAppModule
    | .unique => .ok (sendHeaderUnique name provides imports moduleIds identIdsByModule)

/-- The sharedness `load` passes when loading the ROOT file: the source
passes `Shared` (with a `TODO FIXME go back to using Unique here` comment),
so the root takes the Shared branch of `parse_src`. -/
def loadRootSharedness : Sharedness := .shared

/-! The worker pool of `load_deps`. -/

/-- Embeds `let num_workers = num_cpus::get() - 1;` from `load_deps`. -/
def numWorkersOf (numCpus : Nat) : Nat := numCpus - 1

/-- The per-worker queues/stealers/handles created by the spawn loops of
`load_deps`, one per worker. -/
def workerStealers (numCpus : Nat) : List Nat := List.range (numWorkersOf numCpus)

/-! The coordinator receive loop of `load_deps`. -/

/-- Messages a transition sent on the coordinator channel and that were
actually delivered into the receiver's queue. -/
def sentMsgs (ev : List Event) : List Msg :=
  ev.foldr (fun e acc =>
    match e with
    | .sentFinished true m => m :: acc
    | _ => acc) []

/-- Whether a message is a `Finished` message. -/
def Msg.isFinished : Msg → Bool
  | .finished _ _ _ => true
  | _ => false

/-- Whether a message is a `Solved` message for the given root module. -/
def isRootSolvedB (root : ModuleId) : Msg → Bool
  | .solved _ mid _ _ => mid = root
  | _ => false

/-- Result of running the coordinator receive loop of `load_deps`. -/
inductive LoopResult where
  | done (finalMsg : Msg) (st : State)
  | failed (e : LoadingProblem)
  | panicked (msg : String)
  | outOfFuel
deriving DecidableEq

/-- Embeds the `for msg in msg_rx.iter()` loop of `load_deps`: a `Finished`
message is intercepted and the loop returns; any other message goes to
`update`, whose delivered channel sends are appended to the pending queue.
An exhausted queue models all senders gone: the loop ends and `load_deps`
returns `MsgChannelDied`.  The second component counts the `Finished`
messages enqueued on the channel during the run. -/
def loadLoop (env : Env) (stdlib : StdLib) :
    Nat → State → List Msg → LoopResult × Nat
  | 0, _, _ => (.outOfFuel, 0)
  | _ + 1, _, [] => (.failed .msgChannelDied, 0)
  | fuel + 1, st, m :: rest =>
    match m with
    | .finished a b c => (.done (.finished a b c) st, 0)
    | m =>
      match update env stdlib st m with
      | .ok (st', ev) =>
        ((loadLoop env stdlib fuel st' (rest ++ sentMsgs ev)).1,
         (sentMsgs ev).length + (loadLoop env stdlib fuel st' (rest ++ sentMsgs ev)).2)
      | .err e => (.failed e, 0)
      | .panicked msg => (.panicked msg, 0)

/-- A straight-line run of coordinator transitions over a message list,
collecting every event; `none` if any transition fails or panics. -/
def runUpdates (env : Env) (stdlib : StdLib) :
    State → List Msg → Option (State × List Event)
  | st, [] => some (st, [])
  | st, m :: rest =>
    match update env stdlib st m with
    | .ok (st', ev) =>
      match runUpdates env stdlib st' rest with
      | some (st'', ev') => some (st'', ev ++ ev')
      | none => none
    | _ => none

/-! Small observers used by the theorems. -/

/-- Whether a task is a `ParseAndConstrain` task. -/
def BuildTask.isPAC : BuildTask → Bool
  | .parseAndConstrain _ _ _ _ _ => true
  | _ => false

/-- Whether a task is a `LoadModule` task. -/
def BuildTask.isLoad : BuildTask → Bool
  | .loadModule _ => true
  | _ => false

/-- Whether a task is a `ParseAndConstrain` task for the given header. -/
def taskIsPACFor (t : BuildTask) (h : ModuleHeader) : Prop :=
  ∃ mode mids dids exs, t = .parseAndConstrain h mode mids dids exs

/-- The module id of the header of a `ParseAndConstrain` task, if any. -/
def BuildTask.pacModuleId : BuildTask → Option ModuleId
  | .parseAndConstrain h _ _ _ _ => some h.moduleId
  | _ => none

/-- Number of `taskAdded` signals in an event list. -/
def taskAddedCount (ev : List Event) : Nat :=
  ev.countP (fun e => e = .taskAdded)

/-- Number of task pushes in an event list. -/
def pushCount (ev : List Event) : Nat :=
  ev.countP (fun e =>
    match e with
    | .pushTask _ => true
    | _ => false)

/-- Whether an event list contains a `ParseAndConstrain` push for module `m`. -/
def pacPushedFor (ev : List Event) (m : ModuleId) : Prop :=
  ∃ t, Event.pushTask t ∈ ev ∧ t.pacModuleId = some m

/-- Prefix of a message list before the first `Finished` message. -/
def takeUntilFinished (msgs : List Msg) : List Msg :=
  msgs.takeWhile (fun m => !m.isFinished)

/-- Number of root `Solved` messages in a list. -/
def countRootSolved (root : ModuleId) (msgs : List Msg) : Nat :=
  msgs.countP (isRootSolvedB root)

/-- Whether a loop result is the successful `Finished` return. -/
def LoopResult.isDone : LoopResult → Bool
  | .done _ _ => true
  | _ => false

/-! Concrete inputs used by the closed theorems. -/

/-- A coordinator state with the given root and everything else empty. -/
def emptyState (root : ModuleId) : State :=
  { rootId := root
    srcDir := 0
    exposedTypes := []
    canProblems := []
    headersParsed := [root]
    typeProblems := []
    constrainedIdentIds := []
    arcModules := []
    identIdsByModule := []
    loadingStarted := [root]
    declarationsById := []
    exposedSymbolsByModule := []
    waitingForHeaders := []
    headerListeners := []
    unparsedModules := []
    waitingForSolve := []
    solveListeners := []
    unsolvedModules := [] }

/-- Two live workers, live channels. -/
def env2 : Env := { numWorkers := 2, workersAlive := true, msgTxAlive := true }

/-- Two live workers, but the coordinator message receiver is gone. -/
def envDeadRx : Env := { numWorkers := 2, workersAlive := true, msgTxAlive := false }

/-- Standard mode, no builtin seed. -/
def stdlib0 : StdLib := { mode := .standard, builtins := [] }

/-- A header for module 1 with no imports. -/
def hLeaf : ModuleHeader :=
  { moduleId := 1
    moduleName := "Leaf"
    exposedIdentIds := IdentIds.default
    depsByName := []
    importedModules := []
    exposes := []
    exposedImports := []
    src := 0 }

/-- A header for module 1 importing module 2 (not yet parsed or started). -/
def hDep : ModuleHeader :=
  { moduleId := 1
    moduleName := "Main"
    exposedIdentIds := IdentIds.default
    depsByName := [("Dep", 2)]
    importedModules := [2]
    exposes := []
    exposedImports := []
    src := 0 }

/-- An empty solved module. -/
def sm0 : SolvedModule :=
  { problems := []
    exposedVarsBySymbol := []
    solvedTypes := 0
    aliases := 0 }

/-- The `ParseAndConstrain` task the coordinator builds for `hLeaf` from the
fresh state. -/
def hLeafTask : BuildTask := .parseAndConstrain hLeaf .standard [] [] []

/-- The state after processing `Header(hLeaf)` from the fresh state. -/
def hLeafState : State :=
  { emptyState 0 with headersParsed := [1, 0], waitingForSolve := [(1, [])] }

/-- The state after processing `Header(hDep)` from the fresh state. -/
def hDepState : State :=
  { emptyState 0 with
    headersParsed := [1, 0]
    loadingStarted := [2, 0]
    exposedSymbolsByModule := [(1, [])]
    waitingForHeaders := [(1, [2])]
    headerListeners := [(2, [1])]
    unparsedModules := [(1, hDep)] }

/-! Association-list and set lemmas. -/

theorem lookupM_insertM {α : Type} (m : List (Nat × α)) (k k' : Nat) (v : α) :
    lookupM (insertM m k v) k' = if k = k' then some v else lookupM m k' := rfl

theorem lookupM_eraseM {α : Type} (m : List (Nat × α)) (k k' : Nat) :
    lookupM (eraseM m k) k' = if k' = k then none else lookupM m k' := by
  induction m with
  | nil => simp [eraseM, lookupM]
  | cons p rest ih =>
    obtain ⟨a, v⟩ := p
    by_cases hak : a = k
    · subst hak
      by_cases hk' : k' = a
      · subst hk'
        simp [eraseM, lookupM, ih]
      · have hne : ¬ a = k' := fun h => hk' h.symm
        simp [eraseM, lookupM, hk', hne, ih]
    · by_cases hak' : a = k'
      · have hne : ¬ k' = k := fun h => hak (hak'.trans h)
        simp [eraseM, lookupM, hak, hak', hne]
      · simp [eraseM, lookupM, hak, hak', ih]

theorem mem_insSet {α : Type} [DecidableEq α] (s : List α) (x y : α) :
    x ∈ insSet s y ↔ x = y ∨ x ∈ s := by
  unfold insSet
  by_cases h : y ∈ s
  · simp only [if_pos h]
    constructor
    · exact fun hx => Or.inr hx
    · rintro (rfl | hx)
      · exact h
      · exact hx
  · simp [if_neg h]

theorem mem_foldl_insSet {α : Type} [DecidableEq α] (l : List α) :
    ∀ (acc : List α) (x : α), x ∈ l.foldl insSet acc ↔ x ∈ acc ∨ x ∈ l := by
  induction l with
  | nil => simp
  | cons a rest ih =>
    intro acc x
    simp only [List.foldl_cons, ih, mem_insSet, List.mem_cons]
    tauto

theorem mem_mkSet {α : Type} [DecidableEq α] (l : List α) (x : α) :
    x ∈ mkSet l ↔ x ∈ l := by
  simp [mkSet, mem_foldl_insSet]

/-! Structural lemmas about the coordinator phases. -/

theorem bpc_ok {stdlib : StdLib} {header : ModuleHeader} {am : List String}
    {iibm : List (ModuleId × IdentIds)} {et : List (ModuleId × ExposedModuleTypes)}
    {exs : List Symbol} {wfs : List (ModuleId × List ModuleId)}
    {task : BuildTask} {wfs' : List (ModuleId × List ModuleId)}
    (h : buildParseAndConstrainTask stdlib header am iibm et exs wfs
      = some (task, wfs')) :
    (∃ dids, task = .parseAndConstrain header stdlib.mode am dids exs) ∧
    wfs' = insertM wfs header.moduleId
      (mkSet ((header.depsByName.map (·.2)).filter (fun d => lookupM et d = none))) := by
  unfold buildParseAndConstrainTask at h
  split at h
  · cases h
  · rename_i depIdents hg
    simp only [Option.some.injEq, Prod.mk.injEq] at h
    exact ⟨⟨depIdents, h.1.symm⟩, h.2.symm⟩

theorem pol_cases {env : Env} {stdlib : StdLib} {st : State} {home l : ModuleId}
    {st' : State} {ev : List Event}
    (h : processOneListener env stdlib st home l = .ok (st', ev)) :
    (∃ waiting, lookupM st.waitingForHeaders l = some waiting ∧
      (waiting.filter (· ≠ home)).isEmpty = false ∧
      st' = { st with
        waitingForHeaders := insertM st.waitingForHeaders l (waiting.filter (· ≠ home)) } ∧
      ev = []) ∨
    (∃ waiting hdr exSyms task wfs',
      lookupM st.waitingForHeaders l = some waiting ∧
      (waiting.filter (· ≠ home)).isEmpty = true ∧
      lookupM st.unparsedModules l = some hdr ∧
      lookupM st.exposedSymbolsByModule l = some exSyms ∧
      buildParseAndConstrainTask stdlib hdr st.arcModules st.identIdsByModule
        st.exposedTypes exSyms st.waitingForSolve = some (task, wfs') ∧
      st' = { st with
        waitingForHeaders := insertM st.waitingForHeaders l (waiting.filter (· ≠ home))
        unparsedModules := eraseM st.unparsedModules l
        exposedSymbolsByModule := eraseM st.exposedSymbolsByModule l
        waitingForSolve := wfs' } ∧
      ev = .pushTask task :: List.replicate env.numWorkers .taskAdded) := by
  unfold processOneListener at h
  split at h
  · cases h
  · rename_i waiting hw
    split at h
    · rename_i hempty
      split at h
      · cases h
      · rename_i hdr hu
        split at h
        · cases h
        · rename_i exSyms he
          split at h
          · cases h
          · rename_i task wfs' hb
            split at h
            · cases h
            · injection h with h
              injection h with h1 h2
              refine Or.inr ⟨waiting, hdr, exSyms, task, wfs', hw, ?_, hu, he, hb,
                h1.symm, h2.symm⟩
              simpa using hempty
    · rename_i hempty
      injection h with h
      injection h with h1 h2
      refine Or.inl ⟨waiting, hw, ?_, h1.symm, h2.symm⟩
      simpa using hempty

theorem pd_fields (ds : List (String × ModuleId)) : ∀ (st : State),
    (processDeps st ds).1.rootId = st.rootId ∧
    (processDeps st ds).1.headersParsed = st.headersParsed ∧
    (processDeps st ds).1.unparsedModules = st.unparsedModules ∧
    (processDeps st ds).1.waitingForHeaders = st.waitingForHeaders ∧
    (processDeps st ds).1.headerListeners = st.headerListeners ∧
    (processDeps st ds).1.exposedSymbolsByModule = st.exposedSymbolsByModule ∧
    (processDeps st ds).1.waitingForSolve = st.waitingForSolve ∧
    (processDeps st ds).1.exposedTypes = st.exposedTypes ∧
    (processDeps st ds).1.arcModules = st.arcModules ∧
    (processDeps st ds).1.identIdsByModule = st.identIdsByModule ∧
    (processDeps st ds).1.solveListeners = st.solveListeners ∧
    (processDeps st ds).1.unsolvedModules = st.unsolvedModules := by
  induction ds with
  | nil => intro st; simp [processDeps]
  | cons p rest ih =>
    intro st
    obtain ⟨name, depId⟩ := p
    by_cases hd : depId ∈ st.loadingStarted
    · simpa [processDeps, hd] using ih st
    · simpa [processDeps, hd] using
        ih { st with loadingStarted := depId :: st.loadingStarted }

theorem pd_events (ds : List (String × ModuleId)) : ∀ (st : State),
    ∃ loads : List BuildTask,
      (processDeps st ds).2 = loads.map Event.pushTask ∧
      ∀ t ∈ loads, t.isLoad = true := by
  induction ds with
  | nil => intro st; exact ⟨[], rfl, by simp⟩
  | cons p rest ih =>
    intro st
    obtain ⟨name, depId⟩ := p
    by_cases hd : depId ∈ st.loadingStarted
    · simpa [processDeps, hd] using ih st
    · obtain ⟨loads, hev, hall⟩ := ih { st with loadingStarted := depId :: st.loadingStarted }
      refine ⟨.loadModule name :: loads, ?_, ?_⟩
      · simp [processDeps, hd, hev]
      · intro t ht
        rcases List.mem_cons.mp ht with rfl | ht
        · rfl
        · exact hall t ht

theorem rhl_fields (home : ModuleId) (ds : List ModuleId) : ∀ (st : State),
    (registerHeaderListeners st home ds).rootId = st.rootId ∧
    (registerHeaderListeners st home ds).headersParsed = st.headersParsed ∧
    (registerHeaderListeners st home ds).unparsedModules = st.unparsedModules ∧
    (registerHeaderListeners st home ds).waitingForHeaders = st.waitingForHeaders ∧
    (registerHeaderListeners st home ds).waitingForSolve = st.waitingForSolve ∧
    (registerHeaderListeners st home ds).exposedSymbolsByModule = st.exposedSymbolsByModule ∧
    (registerHeaderListeners st home ds).loadingStarted = st.loadingStarted ∧
    (registerHeaderListeners st home ds).solveListeners = st.solveListeners ∧
    (registerHeaderListeners st home ds).unsolvedModules = st.unsolvedModules ∧
    (registerHeaderListeners st home ds).exposedTypes = st.exposedTypes := by
  induction ds with
  | nil => intro st; simp [registerHeaderListeners]
  | cons d rest ih =>
    intro st
    simpa [registerHeaderListeners] using
      ih { st with
            headerListeners := insertM st.headerListeners d
              ((lookupM st.headerListeners d).getD [] ++ [home]) }

theorem rhl_mono (home : ModuleId) (ds : List ModuleId) : ∀ (st : State) (d : ModuleId),
    home ∈ (lookupM st.headerListeners d).getD [] →
    home ∈ (lookupM (registerHeaderListeners st home ds).headerListeners d).getD [] := by
  induction ds with
  | nil => intro st d hmem; simpa [registerHeaderListeners] using hmem
  | cons d' rest ih =>
    intro st d hmem
    simp only [registerHeaderListeners]
    apply ih
    rw [lookupM_insertM]
    by_cases hdd : d' = d
    · subst hdd
      simp only [if_pos rfl, Option.getD_some]
      exact List.mem_append.mpr (Or.inl hmem)
    · simpa [hdd] using hmem

theorem rhl_adds (home : ModuleId) (ds : List ModuleId) : ∀ (st : State) (d : ModuleId),
    d ∈ ds →
    home ∈ (lookupM (registerHeaderListeners st home ds).headerListeners d).getD [] := by
  induction ds with
  | nil => intro st d hd; cases hd
  | cons d' rest ih =>
    intro st d hd
    rcases List.mem_cons.mp hd with rfl | hd
    · simp only [registerHeaderListeners]
      apply rhl_mono
      rw [lookupM_insertM]
      simp
    · exact ih _ d hd

theorem rsl_fields (mid : ModuleId) (ds : List ModuleId) : ∀ (st : State),
    (registerSolveListeners st mid ds).rootId = st.rootId ∧
    (registerSolveListeners st mid ds).waitingForSolve = st.waitingForSolve ∧
    (registerSolveListeners st mid ds).unparsedModules = st.unparsedModules ∧
    (registerSolveListeners st mid ds).headerListeners = st.headerListeners ∧
    (registerSolveListeners st mid ds).waitingForHeaders = st.waitingForHeaders := by
  induction ds with
  | nil => intro st; simp [registerSolveListeners]
  | cons d rest ih =>
    intro st
    simpa [registerSolveListeners] using
      ih { st with
            solveListeners := insertM st.solveListeners d
              ((lookupM st.solveListeners d).getD [] ++ [mid]) }

theorem psl_ok (mid : ModuleId) : ∀ {ls : List ModuleId} {st st' : State} {ev : List Event},
    processSolveListeners st mid ls = .ok (st', ev) →
    ev = [] ∧ st'.rootId = st.rootId ∧
    (∀ k, lookupM st.waitingForSolve k ≠ none → lookupM st'.waitingForSolve k ≠ none) ∧
    st'.unparsedModules = st.unparsedModules ∧
    st'.headerListeners = st.headerListeners ∧
    st'.waitingForHeaders = st.waitingForHeaders := by
  intro ls
  induction ls with
  | nil =>
    intro st st' ev h
    simp only [processSolveListeners] at h
    injection h with h
    injection h with h1 h2
    subst h1
    exact ⟨h2.symm, rfl, fun k hk => hk, rfl, rfl, rfl⟩
  | cons l rest ih =>
    intro st st' ev h
    simp only [processSolveListeners] at h
    split at h
    · cases h
    · rename_i waiting hw
      split at h
      · split at h <;> cases h
      · have hstep := ih h
        refine ⟨hstep.1, hstep.2.1, ?_, hstep.2.2.2⟩
        intro k hk
        apply hstep.2.2.1 k
        rw [lookupM_insertM]
        by_cases hlk : l = k
        · simp [hlk]
        · simpa [hlk] using hk

theorem pls_ok {env : Env} {stdlib : StdLib} {home : ModuleId} :
    ∀ {ls : List ModuleId} {st st' : State} {ev : List Event},
    processListeners env stdlib st home ls = .ok (st', ev) →
    st'.rootId = st.rootId ∧
    st'.headersParsed = st.headersParsed ∧
    st'.loadingStarted = st.loadingStarted ∧
    st'.headerListeners = st.headerListeners ∧
    st'.arcModules = st.arcModules ∧
    st'.identIdsByModule = st.identIdsByModule ∧
    st'.exposedTypes = st.exposedTypes ∧
    st'.solveListeners = st.solveListeners ∧
    st'.unsolvedModules = st.unsolvedModules ∧
    (∀ k, lookupM st.unparsedModules k = none → lookupM st'.unparsedModules k = none) ∧
    (∀ k, lookupM st.waitingForSolve k ≠ none → lookupM st'.waitingForSolve k ≠ none) ∧
    (∃ pacs : List BuildTask,
      ev = pacs.flatMap
        (fun t => Event.pushTask t :: List.replicate env.numWorkers Event.taskAdded) ∧
      ∀ t ∈ pacs, t.isPAC = true) := by
  intro ls
  induction ls with
  | nil =>
    intro st st' ev h
    simp only [processListeners] at h
    injection h with h
    injection h with h1 h2
    subst h1
    exact ⟨rfl, rfl, rfl, rfl, rfl, rfl, rfl, rfl, rfl, fun k hk => hk, fun k hk => hk,
      ⟨[], h2.symm, by simp⟩⟩
  | cons l rest ih =>
    intro st st' ev h
    simp only [processListeners] at h
    split at h
    · rename_i stm ev1 hpol
      split at h
      · rename_i st2 ev2 hrec
        injection h with h
        injection h with h1 h2
        subst h1
        have hm := ih hrec
        rcases pol_cases hpol with
          ⟨waiting, hw, hne, rfl, rfl⟩ |
          ⟨waiting, hdr, exSyms, task, wfs', hw, he, hu, hx, hb, rfl, rfl⟩
        · refine ⟨hm.1, hm.2.1, hm.2.2.1, hm.2.2.2.1, hm.2.2.2.2.1, hm.2.2.2.2.2.1,
            hm.2.2.2.2.2.2.1, hm.2.2.2.2.2.2.2.1, hm.2.2.2.2.2.2.2.2.1,
            hm.2.2.2.2.2.2.2.2.2.1, hm.2.2.2.2.2.2.2.2.2.2.1, ?_⟩
          obtain ⟨pacs, hev, hall⟩ := hm.2.2.2.2.2.2.2.2.2.2.2
          exact ⟨pacs, by rw [← h2, hev]; simp, hall⟩
        · obtain ⟨hdids, hwfs⟩ := bpc_ok hb
          refine ⟨hm.1, hm.2.1, hm.2.2.1, hm.2.2.2.1, hm.2.2.2.2.1, hm.2.2.2.2.2.1,
            hm.2.2.2.2.2.2.1, hm.2.2.2.2.2.2.2.1, hm.2.2.2.2.2.2.2.2.1, ?_, ?_, ?_⟩
          · intro k hk
            apply hm.2.2.2.2.2.2.2.2.2.1 k
            rw [lookupM_eraseM]
            by_cases hkl : k = l
            · simp [hkl]
            · simpa [hkl] using hk
          · intro k hk
            apply hm.2.2.2.2.2.2.2.2.2.2.1 k
            rw [hwfs, lookupM_insertM]
            by_cases hkl : hdr.moduleId = k
            · simp [hkl]
            · simpa [hkl] using hk
          · obtain ⟨pacs, hev, hall⟩ := hm.2.2.2.2.2.2.2.2.2.2.2
            refine ⟨task :: pacs, ?_, ?_⟩
            · rw [← h2, hev]
              simp [List.flatMap_cons]
            · intro t ht
              rcases List.mem_cons.mp ht with rfl | ht
              · obtain ⟨dids, rfl⟩ := hdids
                rfl
              · exact hall t ht
      · cases h
      · cases h
    · cases h
    · cases h

theorem pls_push_wfs {env : Env} {stdlib : StdLib} {home : ModuleId} :
    ∀ {ls : List ModuleId} {st st' : State} {ev : List Event},
    processListeners env stdlib st home ls = .ok (st', ev) →
    ∀ {t : BuildTask} {mid : ModuleId}, Event.pushTask t ∈ ev →
      t.pacModuleId = some mid → lookupM st'.waitingForSolve mid ≠ none := by
  intro ls
  induction ls with
  | nil =>
    intro st st' ev h t mid hmem hpac
    simp only [processListeners] at h
    injection h with h
    injection h with h1 h2
    subst h2
    cases hmem
  | cons l rest ih =>
    intro st st' ev h t mid hmem hpac
    simp only [processListeners] at h
    split at h
    · rename_i stm ev1 hpol
      split at h
      · rename_i st2 ev2 hrec
        injection h with h
        injection h with h1 h2
        subst h1 h2
        rcases List.mem_append.mp hmem with hmem1 | hmem2
        · rcases pol_cases hpol with
            ⟨waiting, hw, hne, rfl, rfl⟩ |
            ⟨waiting, hdr, exSyms, task, wfs', hw, he, hu, hx, hb, rfl, rfl⟩
          · cases hmem1
          · rcases List.mem_cons.mp hmem1 with heq | hrep
            · obtain ⟨hdids, hwfs⟩ := bpc_ok hb
              obtain ⟨dids, htask⟩ := hdids
              injection heq with heq
              subst heq
              rw [htask] at hpac
              simp only [BuildTask.pacModuleId, Option.some.injEq] at hpac
              apply (pls_ok hrec).2.2.2.2.2.2.2.2.2.2.1 mid
              rw [hwfs, lookupM_insertM, hpac]
              simp
            · exact absurd (List.eq_of_mem_replicate hrep) (by intro hc; cases hc)
        · exact ih hrec hmem2 hpac
      · cases h
      · cases h
    · cases h
    · cases h

theorem pls_push_not_home {env : Env} {stdlib : StdLib} {home : ModuleId} :
    ∀ {ls : List ModuleId} {st st' : State} {ev : List Event},
    processListeners env stdlib st home ls = .ok (st', ev) →
    (∀ l hdr, lookupM st.unparsedModules l = some hdr → hdr.moduleId = l) →
    lookupM st.unparsedModules home = none →
    ∀ t, Event.pushTask t ∈ ev → ∃ mid, t.pacModuleId = some mid ∧ mid ≠ home := by
  intro ls
  induction ls with
  | nil =>
    intro st st' ev h hWF hnone t hmem
    simp only [processListeners] at h
    injection h with h
    injection h with h1 h2
    subst h2
    cases hmem
  | cons l rest ih =>
    intro st st' ev h hWF hnone t hmem
    simp only [processListeners] at h
    split at h
    · rename_i stm ev1 hpol
      split at h
      · rename_i st2 ev2 hrec
        injection h with h
        injection h with h1 h2
        subst h1 h2
        rcases pol_cases hpol with
          ⟨waiting, hw, hne, rfl, rfl⟩ |
          ⟨waiting, hdr, exSyms, task, wfs', hw, he, hu, hx, hb, rfl, rfl⟩
        · rcases List.mem_append.mp hmem with hmem1 | hmem2
          · cases hmem1
          · exact ih hrec hWF hnone t hmem2
        · rcases List.mem_append.mp hmem with hmem1 | hmem2
          · rcases List.mem_cons.mp hmem1 with heq | hrep
            · obtain ⟨⟨dids, htask⟩, hwfs⟩ := bpc_ok hb
              injection heq with heq
              subst heq
              refine ⟨hdr.moduleId, by rw [htask]; rfl, ?_⟩
              intro hcontra
              have hl : home = l := by rw [← hcontra]; exact hWF l hdr hu
              rw [← hl] at hu
              rw [hnone] at hu
              cases hu
            · exact absurd (List.eq_of_mem_replicate hrep) (by intro hc; cases hc)
          · refine ih hrec ?_ ?_ t hmem2
            · intro l' hdr' hl'
              apply hWF l' hdr'
              rw [lookupM_eraseM] at hl'
              by_cases hll : l' = l
              · rw [if_pos hll] at hl'; cases hl'
              · rwa [if_neg hll] at hl'
            · simp only [lookupM_eraseM]
              by_cases hhl : home = l
              · simp [hhl]
              · simpa [hhl] using hnone
      · cases h
      · cases h
    · cases h
    · cases h

theorem uh_cases {env : Env} {stdlib : StdLib} {st : State} {h : ModuleHeader}
    {st' : State} {ev : List Event}
    (hok : updateHeader env stdlib st h = .ok (st', ev)) :
    ∃ st3 evL,
      processListeners env stdlib (headerPre st h) h.moduleId
        ((lookupM st.headerListeners h.moduleId).getD []) = .ok (st3, evL) ∧
      (((headersNeededOf st h).isEmpty = true ∧
        ∃ exSyms task wfs',
          lookupM (processDeps st3 h.depsByName).1.exposedSymbolsByModule h.moduleId
            = some exSyms ∧
          buildParseAndConstrainTask stdlib h
            (processDeps st3 h.depsByName).1.arcModules
            (processDeps st3 h.depsByName).1.identIdsByModule
            (processDeps st3 h.depsByName).1.exposedTypes exSyms
            (processDeps st3 h.depsByName).1.waitingForSolve = some (task, wfs') ∧
          st' = { (processDeps st3 h.depsByName).1 with
            exposedSymbolsByModule :=
              eraseM (processDeps st3 h.depsByName).1.exposedSymbolsByModule h.moduleId
            waitingForSolve := wfs' } ∧
          ev = evL ++ (processDeps st3 h.depsByName).2 ++ [Event.pushTask task]) ∨
      ((headersNeededOf st h).isEmpty = false ∧
        st' = { registerHeaderListeners
            { (processDeps st3 h.depsByName).1 with
              unparsedModules :=
                insertM (processDeps st3 h.depsByName).1.unparsedModules h.moduleId h }
            h.moduleId (headersNeededOf st h) with
          waitingForHeaders :=
            insertM (registerHeaderListeners
              { (processDeps st3 h.depsByName).1 with
                unparsedModules :=
                  insertM (processDeps st3 h.depsByName).1.unparsedModules h.moduleId h }
              h.moduleId (headersNeededOf st h)).waitingForHeaders
              h.moduleId (headersNeededOf st h) } ∧
        ev = evL ++ (processDeps st3 h.depsByName).2)) := by
  unfold updateHeader at hok
  split at hok
  · rename_i st3 evL hpl
    refine ⟨st3, evL, hpl, ?_⟩
    split at hok
    · rename_i hempty
      split at hok
      · cases hok
      · rename_i exSyms hx
        split at hok
        · cases hok
        · rename_i task wfs' hb
          injection hok with hok
          injection hok with h1 h2
          exact Or.inl ⟨hempty, exSyms, task, wfs', hx, hb, h1.symm, h2.symm⟩
    · rename_i hempty
      injection hok with hok
      injection hok with h1 h2
      refine Or.inr ⟨?_, h1.symm, h2.symm⟩
      simpa using hempty
  · cases hok
  · cases hok

theorem uc_cases {st : State} {module : ModuleCan} {declarations : Nat}
    {importedModules : List ModuleId} {src constraint : Nat} {identIds : IdentIds}
    {problems : List Nat} {varStore : Nat} {st' : State} {ev : List Event}
    (hok : updateConstrained st module declarations importedModules src constraint
      identIds problems varStore = .ok (st', ev)) :
    ∃ waiting,
      lookupM st.waitingForSolve module.moduleId = some waiting ∧
      (waiting.filter (fun i => lookupM st.exposedTypes i = none)).isEmpty = false ∧
      st' = registerSolveListeners
        { st with
          canProblems := st.canProblems ++ problems
          constrainedIdentIds := insertM st.constrainedIdentIds module.moduleId identIds
          waitingForSolve := insertM st.waitingForSolve module.moduleId
            (waiting.filter (fun i => lookupM st.exposedTypes i = none))
          declarationsById := insertM st.declarationsById module.moduleId declarations
          unsolvedModules := insertM st.unsolvedModules module.moduleId
            (module, src, importedModules, constraint, varStore) }
        module.moduleId (waiting.filter (fun i => lookupM st.exposedTypes i = none)) ∧
      ev = [] := by
  unfold updateConstrained at hok
  split at hok
  · cases hok
  · rename_i waiting hw
    split at hok
    · cases hok
    · rename_i hne
      injection hok with hok
      injection hok with h1 h2
      refine ⟨waiting, hw, ?_, h1.symm, h2.symm⟩
      simpa using hne

theorem us_cases {env : Env} {st : State} {src : Nat} {mid : ModuleId}
    {sm : SolvedModule} {subsUnique : Bool} {st' : State} {ev : List Event}
    (hok : updateSolved env st src mid sm subsUnique = .ok (st', ev)) :
    (mid = st.rootId ∧ subsUnique = true ∧
      st' = { st with typeProblems := st.typeProblems ++ sm.problems } ∧
      ev = [.sentFinished env.msgTxAlive (.finished 0 sm.exposedVarsBySymbol src)]) ∨
    (mid ≠ st.rootId ∧
      processSolveListeners
        { st with
          typeProblems := st.typeProblems ++ sm.problems
          exposedTypes := insertM st.exposedTypes mid (.valid sm.solvedTypes sm.aliases)
          solveListeners := eraseM st.solveListeners mid }
        mid ((lookupM st.solveListeners mid).getD []) = .ok (st', ev)) := by
  unfold updateSolved at hok
  split at hok
  · rename_i hroot
    split at hok
    · rename_i huniq
      injection hok with hok
      injection hok with h1 h2
      exact Or.inl ⟨hroot, huniq, h1.symm, h2.symm⟩
    · cases hok
  · rename_i hroot
    exact Or.inr ⟨hroot, hok⟩

theorem upd_rootId {env : Env} {stdlib : StdLib} {st : State} {msg : Msg}
    {st' : State} {ev : List Event}
    (hok : update env stdlib st msg = .ok (st', ev)) : st'.rootId = st.rootId := by
  cases msg with
  | header h =>
    obtain ⟨st3, evL, hpl, hcase⟩ := uh_cases hok
    have h3 : st3.rootId = st.rootId := (pls_ok hpl).1
    have hpd : (processDeps st3 h.depsByName).1.rootId = st3.rootId :=
      (pd_fields h.depsByName st3).1
    rcases hcase with ⟨-, exSyms, task, wfs', -, -, rfl, -⟩ | ⟨-, hst, -⟩
    · exact hpd.trans h3
    · rw [hst]
      exact ((rhl_fields h.moduleId (headersNeededOf st h) _).1).trans (hpd.trans h3)
  | constrained module declarations importedModules src constraint identIds problems varStore =>
    obtain ⟨waiting, hw, hne, rfl, -⟩ := uc_cases hok
    exact (rsl_fields module.moduleId _ _).1
  | solved src mid sm subsUnique =>
    rcases us_cases hok with ⟨hroot, huniq, rfl, -⟩ | ⟨hroot, hpsl⟩
    · rfl
    · exact (psl_ok mid hpsl).2.1
  | finished a b c => cases hok

theorem upd_wfs_persist {env : Env} {stdlib : StdLib} {st : State} {msg : Msg}
    {st' : State} {ev : List Event}
    (hok : update env stdlib st msg = .ok (st', ev)) :
    ∀ k, lookupM st.waitingForSolve k ≠ none →
      lookupM st'.waitingForSolve k ≠ none := by
  intro k hk
  cases msg with
  | header h =>
    obtain ⟨st3, evL, hpl, hcase⟩ := uh_cases hok
    have h3 : lookupM st3.waitingForSolve k ≠ none :=
      (pls_ok hpl).2.2.2.2.2.2.2.2.2.2.1 k hk
    have hpd : (processDeps st3 h.depsByName).1.waitingForSolve = st3.waitingForSolve :=
      (pd_fields h.depsByName st3).2.2.2.2.2.2.1
    rcases hcase with ⟨-, exSyms, task, wfs', -, hb, rfl, -⟩ | ⟨-, hst, -⟩
    · show lookupM wfs' k ≠ none
      obtain ⟨-, hwfs⟩ := bpc_ok hb
      rw [hwfs, lookupM_insertM]
      by_cases hhk : h.moduleId = k
      · simp [hhk]
      · rw [if_neg hhk, hpd]
        exact h3
    · rw [hst]
      show lookupM (registerHeaderListeners _ h.moduleId
        (headersNeededOf st h)).waitingForSolve k ≠ none
      rw [(rhl_fields h.moduleId (headersNeededOf st h) _).2.2.2.2.1]
      show lookupM (processDeps st3 h.depsByName).1.waitingForSolve k ≠ none
      rw [hpd]
      exact h3
  | constrained module declarations importedModules src constraint identIds problems varStore =>
    obtain ⟨waiting, hw, hne, rfl, -⟩ := uc_cases hok
    rw [(rsl_fields module.moduleId _ _).2.1]
    show lookupM (insertM st.waitingForSolve module.moduleId _) k ≠ none
    rw [lookupM_insertM]
    by_cases hmk : module.moduleId = k
    · simp [hmk]
    · rw [if_neg hmk]
      exact hk
  | solved src mid sm subsUnique =>
    rcases us_cases hok with ⟨hroot, huniq, rfl, -⟩ | ⟨hroot, hpsl⟩
    · exact hk
    · exact (psl_ok mid hpsl).2.2.1 k hk
  | finished a b c => cases hok

theorem upd_push_wfs {env : Env} {stdlib : StdLib} {st : State} {msg : Msg}
    {st' : State} {ev : List Event}
    (hok : update env stdlib st msg = .ok (st', ev)) :
    ∀ {t : BuildTask} {mid : ModuleId}, Event.pushTask t ∈ ev →
      t.pacModuleId = some mid → lookupM st'.waitingForSolve mid ≠ none := by
  intro t mid hmem hpac
  cases msg with
  | header h =>
    obtain ⟨st3, evL, hpl, hcase⟩ := uh_cases hok
    have hpd : (processDeps st3 h.depsByName).1.waitingForSolve = st3.waitingForSolve :=
      (pd_fields h.depsByName st3).2.2.2.2.2.2.1
    have hnotdep : Event.pushTask t ∈ (processDeps st3 h.depsByName).2 → False := by
      intro hd
      obtain ⟨loads, hev, hall⟩ := pd_events h.depsByName st3
      rw [hev] at hd
      obtain ⟨t', ht', heq⟩ := List.mem_map.mp hd
      injection heq with heq
      subst heq
      have := hall t' ht'
      cases t' with
      | loadModule name => cases hpac
      | parseAndConstrain a b c d e => cases this
    rcases hcase with ⟨-, exSyms, task, wfs', -, hb, rfl, hev⟩ | ⟨-, hst, hev⟩
    · subst hev
      obtain ⟨⟨dids, htask⟩, hwfs⟩ := bpc_ok hb
      rcases List.mem_append.mp hmem with hmem1 | hmem2
      · rcases List.mem_append.mp hmem1 with hmemL | hmemD
        · have h3 := pls_push_wfs hpl hmemL hpac
          show lookupM wfs' mid ≠ none
          rw [hwfs, lookupM_insertM]
          by_cases hhk : h.moduleId = mid
          · simp [hhk]
          · rw [if_neg hhk, hpd]
            exact h3
        · exact absurd hmemD hnotdep
      · have : t = task := by
          rcases List.mem_cons.mp hmem2 with heq | hc
          · injection heq
          · cases hc
        subst this
        rw [htask] at hpac
        simp only [BuildTask.pacModuleId, Option.some.injEq] at hpac
        show lookupM wfs' mid ≠ none
        rw [hwfs, lookupM_insertM, hpac]
        simp
    · subst hev
      rw [hst]
      show lookupM (registerHeaderListeners _ h.moduleId
        (headersNeededOf st h)).waitingForSolve mid ≠ none
      rw [(rhl_fields h.moduleId (headersNeededOf st h) _).2.2.2.2.1]
      show lookupM (processDeps st3 h.depsByName).1.waitingForSolve mid ≠ none
      rw [hpd]
      rcases List.mem_append.mp hmem with hmemL | hmemD
      · exact pls_push_wfs hpl hmemL hpac
      · exact absurd hmemD hnotdep
  | constrained module declarations importedModules src constraint identIds problems varStore =>
    obtain ⟨waiting, hw, hne, -, hev⟩ := uc_cases hok
    subst hev
    cases hmem
  | solved src mid' sm subsUnique =>
    rcases us_cases hok with ⟨-, -, -, hev⟩ | ⟨-, hpsl⟩
    · subst hev
      rcases List.mem_cons.mp hmem with heq | hc
      · cases heq
      · cases hc
    · rw [(psl_ok mid' hpsl).1] at hmem
      cases hmem
  | finished a b c => cases hok

theorem sentMsgs_cons (e : Event) (ev : List Event) :
    sentMsgs (e :: ev) =
      (match e with | .sentFinished true m => [m] | _ => []) ++ sentMsgs ev := by
  cases e with
  | pushTask t => rfl
  | taskAdded => rfl
  | sentFinished d m => cases d <;> rfl

theorem sentMsgs_append (a b : List Event) :
    sentMsgs (a ++ b) = sentMsgs a ++ sentMsgs b := by
  induction a with
  | nil => rfl
  | cons e rest ih =>
    rw [List.cons_append, sentMsgs_cons, sentMsgs_cons, ih, List.append_assoc]

theorem sentMsgs_eq_nil {ev : List Event}
    (h : ∀ e ∈ ev, ∀ m : Msg, e ≠ Event.sentFinished true m) : sentMsgs ev = [] := by
  induction ev with
  | nil => rfl
  | cons e rest ih =>
    rw [sentMsgs_cons]
    have hrest := ih (fun e' he' => h e' (List.mem_cons.mpr (Or.inr he')))
    rw [hrest]
    cases e with
    | pushTask t => rfl
    | taskAdded => rfl
    | sentFinished d m =>
      cases d with
      | false => rfl
      | true => exact absurd rfl (h _ (List.mem_cons_self _ _) m)

theorem upd_sent {env : Env} {stdlib : StdLib} {st : State} {msg : Msg}
    {st' : State} {ev : List Event}
    (hok : update env stdlib st msg = .ok (st', ev))
    (halive : env.msgTxAlive = true) :
    (sentMsgs ev).length = (if isRootSolvedB st.rootId msg then 1 else 0) ∧
    ∀ mm ∈ sentMsgs ev, mm.isFinished = true := by
  cases msg with
  | header h =>
    obtain ⟨st3, evL, hpl, hcase⟩ := uh_cases hok
    obtain ⟨pacs, hevL, -⟩ := (pls_ok hpl).2.2.2.2.2.2.2.2.2.2.2
    obtain ⟨loads, hevD, -⟩ := pd_events h.depsByName st3
    have hL : sentMsgs evL = [] := by
      apply sentMsgs_eq_nil
      intro e he m
      rw [hevL] at he
      obtain ⟨t', -, he'⟩ := List.mem_flatMap.mp he
      rcases List.mem_cons.mp he' with rfl | hrep
      · intro hc; cases hc
      · rw [List.eq_of_mem_replicate hrep]
        intro hc; cases hc
    have hD : sentMsgs (processDeps st3 h.depsByName).2 = [] := by
      apply sentMsgs_eq_nil
      intro e he m
      rw [hevD] at he
      obtain ⟨t', -, he'⟩ := List.mem_map.mp he
      rw [← he']
      intro hc; cases hc
    rcases hcase with ⟨-, exSyms, task, wfs', -, -, -, hev⟩ | ⟨-, -, hev⟩ <;> subst hev
    · rw [sentMsgs_append, sentMsgs_append, hL, hD]
      exact ⟨rfl, by intro mm hmm; cases hmm⟩
    · rw [sentMsgs_append, hL, hD]
      exact ⟨rfl, by intro mm hmm; cases hmm⟩
  | constrained module declarations importedModules src constraint identIds problems varStore =>
    obtain ⟨-, -, -, -, hev⟩ := uc_cases hok
    subst hev
    exact ⟨rfl, by intro mm hmm; cases hmm⟩
  | solved src mid sm subsUnique =>
    rcases us_cases hok with ⟨hroot, -, -, hev⟩ | ⟨hroot, hpsl⟩
    · subst hev
      rw [halive]
      constructor
      · simp [sentMsgs, isRootSolvedB, hroot]
      · intro mm hmm
        have hmf : mm = Msg.finished 0 sm.exposedVarsBySymbol src := by
          simpa [sentMsgs] using hmm
        rw [hmf]
        rfl
    · rw [(psl_ok mid hpsl).1]
      constructor
      · simp [sentMsgs, isRootSolvedB, hroot]
      · intro mm hmm; cases hmm
  | finished a b c => cases hok

theorem collectSteals_eq_empty_iff {α : Type} (ss : List (Steal α)) :
    collectSteals ss = .empty ↔ ∀ s ∈ ss, s = .empty := by
  induction ss with
  | nil => simp [collectSteals]
  | cons s rest ih =>
    cases s with
    | empty => simp [collectSteals, ih]
    | success a => simp [collectSteals]
    | retry =>
      constructor
      · intro h
        exfalso
        simp only [collectSteals] at h
        rcases hc : collectSteals rest with _ | a | _ <;> rw [hc] at h <;> cases h
      · intro h
        exact absurd (h _ (List.mem_cons_self _ _)) (by intro hc; cases hc)

theorem roundOutcome_eq_empty_iff {α : Type} (r : Steal α × List (Steal α)) :
    roundOutcome r = .empty ↔ r.1 = .empty ∧ ∀ s ∈ r.2, s = .empty := by
  obtain ⟨g, ss⟩ := r
  cases g with
  | empty => simp [roundOutcome, Steal.orElseS, collectSteals_eq_empty_iff]
  | success a =>
    simp only [roundOutcome, Steal.orElseS]
    constructor
    · intro h; cases h
    · rintro ⟨h, -⟩; cases h
  | retry =>
    simp only [roundOutcome, Steal.orElseS]
    constructor
    · intro h
      exfalso
      rcases hc : collectSteals ss with _ | a | _ <;> rw [hc] at h <;> cases h
    · rintro ⟨h, -⟩; cases h

theorem findFirstNonRetry_eq_some {α : Type} (rounds : List (Steal α × List (Steal α)))
    (s : Steal α) (h : findFirstNonRetry rounds = some s) :
    ∃ pre r post, rounds = pre ++ r :: post ∧
      (∀ r' ∈ pre, (roundOutcome r').isRetry = true) ∧
      roundOutcome r = s ∧ s.isRetry = false := by
  induction rounds with
  | nil => cases h
  | cons r rest ih =>
    by_cases hr : (roundOutcome r).isRetry = true
    · simp only [findFirstNonRetry, hr, if_pos] at h
      obtain ⟨pre, r', post, heq, hpre, hout, hnr⟩ := ih h
      exact ⟨r :: pre, r', post, by simp [heq], by
        intro x hx
        rcases List.mem_cons.mp hx with rfl | hx
        · exact hr
        · exact hpre x hx, hout, hnr⟩
    · simp only [findFirstNonRetry] at h
      rw [if_neg hr] at h
      injection h with h
      exact ⟨[], r, rest, by simp, by simp, h, by rw [← h]; simpa using hr⟩

theorem findFirstNonRetry_all_retry {α : Type}
    (rounds : List (Steal α × List (Steal α)))
    (h : ∀ r ∈ rounds, (roundOutcome r).isRetry = true) :
    findFirstNonRetry rounds = none := by
  induction rounds with
  | nil => rfl
  | cons r rest ih =>
    simp only [findFirstNonRetry, h r (List.mem_cons_self _ _), if_pos]
    exact ih (fun r' hr' => h r' (List.mem_cons.mpr (Or.inr hr')))

/-- C3: `find_task` first pops the caller's local queue; otherwise it scans
the rounds of steal observations (global steal combined with the
round-robin stealer steals via the crossbeam `or_else`/`collect`
combinators), skipping every round whose combined outcome is a retry.  It
returns the first definitively stolen task; it reports a definitive
`None` only when a round observed the global queue empty and every peer
stealer empty; and when every observed round retries it keeps looping
rather than returning `None`. -/
theorem c3_find_task_semantics {α : Type} :
    (∀ (t : α) (rounds : List (Steal α × List (Steal α))),
      findTask (some t) rounds = some (some t)) ∧
    (∀ (rounds : List (Steal α × List (Steal α))),
      findTask (none : Option α) rounds = some none →
      ∃ pre r post, rounds = pre ++ r :: post ∧
        (∀ r' ∈ pre, (roundOutcome r').isRetry = true) ∧
        r.1 = Steal.empty ∧ (∀ s ∈ r.2, s = Steal.empty)) ∧
    (∀ (rounds : List (Steal α × List (Steal α))) (t : α),
      findTask (none : Option α) rounds = some (some t) →
      ∃ pre r post, rounds = pre ++ r :: post ∧
        (∀ r' ∈ pre, (roundOutcome r').isRetry = true) ∧
        roundOutcome r = Steal.success t) ∧
    (∀ (rounds : List (Steal α × List (Steal α))),
      (∀ r ∈ rounds, (roundOutcome r).isRetry = true) →
      findTask (none : Option α) rounds = none) := by
  refine ⟨fun t rounds => rfl, ?_, ?_, ?_⟩
  · intro rounds h
    simp only [findTask, Option.map_eq_some'] at h
    obtain ⟨s, hs, hnone⟩ := h
    obtain ⟨pre, r, post, heq, hpre, hout, hnr⟩ := findFirstNonRetry_eq_some rounds s hs
    have hempty : s = Steal.empty := by
      cases s with
      | empty => rfl
      | success a => cases hnone
      | retry => cases hnr
    subst hempty
    have := (roundOutcome_eq_empty_iff r).mp hout
    exact ⟨pre, r, post, heq, hpre, this.1, this.2⟩
  · intro rounds t h
    simp only [findTask, Option.map_eq_some'] at h
    obtain ⟨s, hs, hsucc⟩ := h
    obtain ⟨pre, r, post, heq, hpre, hout, hnr⟩ := findFirstNonRetry_eq_some rounds s hs
    have hst : s = Steal.success t := by
      cases s with
      | empty => cases hsucc
      | success a => simp only [Steal.toSuccess, Option.some.injEq] at hsucc; rw [hsucc]
      | retry => cases hnr
    subst hst
    exact ⟨pre, r, post, heq, hpre, hout⟩
  · intro rounds h
    simp [findTask, findFirstNonRetry_all_retry rounds h]

/-- Witness for C3: a concrete observation sequence in which the first round
retries and the second finds everything empty; `find_task` skips the retry
and reports the definitive empty result. -/
theorem c3_find_task_semantics_witness :
    findTask (none : Option Nat)
        [(Steal.retry, [Steal.empty]), (Steal.empty, [Steal.empty, Steal.empty])]
      = some none ∧
    (∃ pre r post,
      [(Steal.retry, [Steal.empty]), (Steal.empty, [Steal.empty, Steal.empty])]
        = pre ++ r :: post ∧
      (∀ r' ∈ pre, (roundOutcome r').isRetry = true) ∧
      r.1 = (Steal.empty : Steal Nat) ∧ (∀ s ∈ r.2, s = Steal.empty)) :=
  ⟨rfl, c3_find_task_semantics.2.1
    [(Steal.retry, [Steal.empty]), (Steal.empty, [Steal.empty, Steal.empty])] rfl⟩

/-- C1: false on the code.  When a module's solve barrier empties — in the
`Constrained` handler after retaining only unsolved deps, and in the
`Solved` handler when a listener's barrier empties — `update` does NOT
enqueue a solve task: it reaches the `todo!` stubs and panics.  Shown at a
`Constrained` message for module 5 whose only awaited dep 9 is already in
`exposed_types`, and at a `Solved` message for module 7 with listener 3. -/
theorem c1_solve_stub_panics :
    update env2 stdlib0
        { emptyState 0 with
          waitingForSolve := [(5, [9])], exposedTypes := [(9, .valid 0 0)] }
        (.constrained ⟨5, 0⟩ 0 [] 0 0 IdentIds.default [] 0)
      = .panicked "add a task for solving this module." ∧
    update env2 stdlib0
        { emptyState 0 with
          solveListeners := [(7, [3])], waitingForSolve := [(3, [7])],
          unsolvedModules := [(3, (⟨3, 0⟩, 0, [], 0, 0))] }
        (.solved 0 7 sm0 true)
      = .panicked "spawn_solve_module" :=
  ⟨rfl, rfl⟩

/-- C5: false on the code for the root.  `load` loads the root with
`MaybeShared::Shared` intern tables (the `TODO FIXME` in `load`), so a root
file with an `App` header takes the Shared branch of `parse_src` and the
load fails with `TriedToImportAppModule` instead of being accepted.  An
`App` header reached via an import also fails with it, and `Interface`
headers are accepted for any module. -/
theorem c5_root_app_rejected :
    parseSrc "Main.roc" loadRootSharedness (some (.appHeader "Main" [] [])) [] []
      = .error .triedToImportAppModule ∧
    parseSrc "B.roc" .shared (some (.appHeader "B" [] [])) ["A"] []
      = .error .triedToImportAppModule ∧
    parseSrc "A.roc" .shared (some (.interfaceHeader "A" [] [])) [] []
      = .ok (sendHeaderShared "A" [] [] [] []) ∧
    parseSrc "Main.roc" .unique (some (.interfaceHeader "Main" [] [])) [] []
      = .ok (sendHeaderUnique "Main" [] [] [] []) :=
  ⟨rfl, rfl, rfl, rfl⟩

/-- C6: false on the code.  With the coordinator receiver gone, the `Solved`
handler's send of `Msg::Finished` fails, but the handler ignores the send
result and the transition still returns `Ok` — it does not surface
`MsgChannelDied`. -/
theorem c6_finished_send_failure_ignored :
    update envDeadRx stdlib0 (emptyState 0) (.solved 0 0 sm0 true)
      = .ok (emptyState 0, [.sentFinished false (.finished 0 [] 0)]) ∧
    update envDeadRx stdlib0 (emptyState 0) (.solved 0 0 sm0 true)
      ≠ .err .msgChannelDied :=
  ⟨rfl, by decide⟩

/-- C7: false on the code.  In the Shared branch of `send_header`, for the
module `Home` (whose ident table is pre-seeded with one name) importing
`Foo.\x7b bar \x7d`: the dep id is assigned and recorded in `deps_by_name`
and `imported_modules`, but `bar`'s `IdentId` is allocated by
`IdentIds::add` in HOME's ident table (becoming id 1 next to "seed"), the
scope records `(Symbol(Foo, 1), region)`, and Foo's own ident table is
never created; when `Foo` itself is later loaded, its exposed `bar` gets
`IdentId` 0 in Foo's fresh table, so the ids do not collide as claimed. -/
theorem c7_dep_ident_allocated_in_home_table :
    (sendHeaderShared "Home" [] [("Foo", ["bar"], 9)] ["Home"]
        [(0, ⟨["seed"]⟩)]).depsByName = [("Foo", 1)] ∧
    (sendHeaderShared "Home" [] [("Foo", ["bar"], 9)] ["Home"]
        [(0, ⟨["seed"]⟩)]).importedModules = [1] ∧
    (sendHeaderShared "Home" [] [("Foo", ["bar"], 9)] ["Home"]
        [(0, ⟨["seed"]⟩)]).scope = [("bar", ⟨1, 1⟩, 9)] ∧
    lookupM (sendHeaderShared "Home" [] [("Foo", ["bar"], 9)] ["Home"]
        [(0, ⟨["seed"]⟩)]).identIdsByModule 1 = none ∧
    lookupM (sendHeaderShared "Home" [] [("Foo", ["bar"], 9)] ["Home"]
        [(0, ⟨["seed"]⟩)]).identIdsByModule 0 = some ⟨["seed", "bar"]⟩ ∧
    (sendHeaderShared "Foo" ["bar"] []
        (sendHeaderShared "Home" [] [("Foo", ["bar"], 9)] ["Home"]
          [(0, ⟨["seed"]⟩)]).moduleIds
        (sendHeaderShared "Home" [] [("Foo", ["bar"], 9)] ["Home"]
          [(0, ⟨["seed"]⟩)]).identIdsByModule).exposesSyms = [⟨1, 0⟩] :=
  ⟨rfl, rfl, rfl, rfl, rfl, rfl⟩

/-- C8 counterexample: on a machine reporting a single CPU, `load_deps`
spawns `1 - 1 = 0` workers, not `max(1, cpu_count - 1) = 1`. -/
theorem c8_cex :
    (workerStealers 1).length = 0 ∧ (workerStealers 1).length ≠ max 1 (1 - 1) := by
  decide

/-- C8 as amended: the worker pool consists of exactly `cpu_count - 1`
workers (which agrees with `max(1, cpu_count - 1)` only for two or more
CPUs; a single-CPU machine gets zero workers). -/
theorem c8_worker_count (numCpus : Nat) :
    (workerStealers numCpus).length = numCpus - 1 ∧
    (2 ≤ numCpus → (workerStealers numCpus).length = max 1 (numCpus - 1)) := by
  constructor
  · simp [workerStealers, numWorkersOf]
  · intro h
    simp only [workerStealers, numWorkersOf, List.length_range]
    omega

/-- Witness for C8: with nine CPUs the pool has eight workers. -/
theorem c8_worker_count_witness :
    (workerStealers 9).length = 8 ∧ (workerStealers 9).length = max 1 (9 - 1) :=
  ⟨(c8_worker_count 9).1, (c8_worker_count 9).2 (by decide)⟩

/-! Lemmas about the receive loop, leading to claim C9. -/

theorem takeUntilFinished_eq_self {msgs : List Msg}
    (h : ∀ m ∈ msgs, m.isFinished = false) : takeUntilFinished msgs = msgs := by
  induction msgs with
  | nil => rfl
  | cons m rest ih =>
    have hm := h m (List.mem_cons_self _ _)
    have hrest := ih (fun m' hm' => h m' (List.mem_cons.mpr (Or.inr hm')))
    simp only [takeUntilFinished, List.takeWhile] at hrest ⊢
    rw [hm]
    simpa using hrest

theorem countRootSolved_takeUntil_append (root : ModuleId) (a b : List Msg)
    (hb : ∀ m ∈ b, m.isFinished = true) :
    countRootSolved root (takeUntilFinished (a ++ b))
      = countRootSolved root (takeUntilFinished a) := by
  induction a with
  | nil =>
    cases b with
    | nil => rfl
    | cons m b' =>
      have hm := hb m (List.mem_cons_self _ _)
      simp [takeUntilFinished, List.takeWhile, hm, countRootSolved]
  | cons m a' ih =>
    cases hm : m.isFinished with
    | true =>
      simp [takeUntilFinished, List.takeWhile, hm]
    | false =>
      simp only [List.cons_append, takeUntilFinished, List.takeWhile, hm,
        Bool.not_false, countRootSolved, List.countP_cons, List.append_eq] at ih ⊢
      rw [ih]

theorem loop_count {env : Env} {stdlib : StdLib} (halive : env.msgTxAlive = true) :
    ∀ (fuel : Nat) (st : State) (msgs : List Msg) (res : LoopResult) (k : Nat),
      loadLoop env stdlib fuel st msgs = (res, k) → res.isDone = true →
      k = countRootSolved st.rootId (takeUntilFinished msgs) := by
  intro fuel
  induction fuel with
  | zero =>
    intro st msgs res k h hdone
    simp only [loadLoop] at h
    injection h with h1 h2
    rw [← h1] at hdone
    cases hdone
  | succ fuel ih =>
    intro st msgs res k h hdone
    cases msgs with
    | nil =>
      simp only [loadLoop] at h
      injection h with h1 h2
      rw [← h1] at hdone
      cases hdone
    | cons m rest =>
      cases m with
      | finished a b c =>
        simp only [loadLoop] at h
        injection h with h1 h2
        rw [← h2]
        simp [takeUntilFinished, List.takeWhile, Msg.isFinished, countRootSolved]
      | header hd =>
        rw [show loadLoop env stdlib (fuel + 1) st (Msg.header hd :: rest)
            = (match update env stdlib st (.header hd) with
              | .ok (st', ev) =>
                ((loadLoop env stdlib fuel st' (rest ++ sentMsgs ev)).1,
                 (sentMsgs ev).length + (loadLoop env stdlib fuel st' (rest ++ sentMsgs ev)).2)
              | .err e => (LoopResult.failed e, 0)
              | .panicked msg => (LoopResult.panicked msg, 0)) from rfl] at h
        split at h
        · rename_i st1 ev hupd
          injection h with h1 h2
          have hk2 := ih st1 (rest ++ sentMsgs ev) _ _ rfl (by rw [h1]; exact hdone)
          have hsent := upd_sent hupd halive
          rw [← h2, hk2, upd_rootId hupd,
            countRootSolved_takeUntil_append st.rootId rest (sentMsgs ev) hsent.2,
            hsent.1]
          simp only [takeUntilFinished, List.takeWhile, Msg.isFinished, Bool.not_false,
            countRootSolved, List.countP_cons, isRootSolvedB]
          omega
        · rename_i e hupd
          injection h with h1 h2
          rw [← h1] at hdone
          cases hdone
        · rename_i msg hupd
          injection h with h1 h2
          rw [← h1] at hdone
          cases hdone
      | constrained mc d imp src con ii pr vs =>
        rw [show loadLoop env stdlib (fuel + 1) st (Msg.constrained mc d imp src con ii pr vs :: rest)
            = (match update env stdlib st (.constrained mc d imp src con ii pr vs) with
              | .ok (st', ev) =>
                ((loadLoop env stdlib fuel st' (rest ++ sentMsgs ev)).1,
                 (sentMsgs ev).length + (loadLoop env stdlib fuel st' (rest ++ sentMsgs ev)).2)
              | .err e => (LoopResult.failed e, 0)
              | .panicked msg => (LoopResult.panicked msg, 0)) from rfl] at h
        split at h
        · rename_i st1 ev hupd
          injection h with h1 h2
          have hk2 := ih st1 (rest ++ sentMsgs ev) _ _ rfl (by rw [h1]; exact hdone)
          have hsent := upd_sent hupd halive
          rw [← h2, hk2, upd_rootId hupd,
            countRootSolved_takeUntil_append st.rootId rest (sentMsgs ev) hsent.2,
            hsent.1]
          simp only [takeUntilFinished, List.takeWhile, Msg.isFinished, Bool.not_false,
            countRootSolved, List.countP_cons, isRootSolvedB]
          omega
        · rename_i e hupd
          injection h with h1 h2
          rw [← h1] at hdone
          cases hdone
        · rename_i msg hupd
          injection h with h1 h2
          rw [← h1] at hdone
          cases hdone
      | solved src mid sm uniq =>
        rw [show loadLoop env stdlib (fuel + 1) st (Msg.solved src mid sm uniq :: rest)
            = (match update env stdlib st (.solved src mid sm uniq) with
              | .ok (st', ev) =>
                ((loadLoop env stdlib fuel st' (rest ++ sentMsgs ev)).1,
                 (sentMsgs ev).length + (loadLoop env stdlib fuel st' (rest ++ sentMsgs ev)).2)
              | .err e => (LoopResult.failed e, 0)
              | .panicked msg => (LoopResult.panicked msg, 0)) from rfl] at h
        split at h
        · rename_i st1 ev hupd
          injection h with h1 h2
          have hk2 := ih st1 (rest ++ sentMsgs ev) _ _ rfl (by rw [h1]; exact hdone)
          have hsent := upd_sent hupd halive
          rw [← h2, hk2, upd_rootId hupd,
            countRootSolved_takeUntil_append st.rootId rest (sentMsgs ev) hsent.2,
            hsent.1]
          simp only [takeUntilFinished, List.takeWhile, Msg.isFinished, Bool.not_false,
            countRootSolved, List.countP_cons, isRootSolvedB]
          omega
        · rename_i e hupd
          injection h with h1 h2
          rw [← h1] at hdone
          cases hdone
        · rename_i msg hupd
          injection h with h1 h2
          rw [← h1] at hdone
          cases hdone

/-- C9: the `update` function never handles a `Finished` message (its arm is
unreachable; the receive loop intercepts `Finished` and returns
immediately); a transition enqueues a `Finished` message exactly when it
processes the `Solved` message whose module id is the root; and over any
complete run of the receive loop started on a queue with no `Finished`
message and exactly one root `Solved` message, exactly one `Finished`
message is ever enqueued on the channel. -/
theorem c9_single_finished :
    (∀ (env : Env) (stdlib : StdLib) (st : State) (a : Nat)
        (b : List (Symbol × Nat)) (c : Nat),
      update env stdlib st (.finished a b c) = .panicked "unreachable") ∧
    (∀ (env : Env) (stdlib : StdLib) (fuel : Nat) (st : State) (a : Nat)
        (b : List (Symbol × Nat)) (c : Nat) (rest : List Msg),
      loadLoop env stdlib (fuel + 1) st (.finished a b c :: rest)
        = (.done (.finished a b c) st, 0)) ∧
    (∀ (env : Env) (stdlib : StdLib) (st : State) (msg : Msg) (st' : State)
        (ev : List Event),
      update env stdlib st msg = .ok (st', ev) → env.msgTxAlive = true →
      (sentMsgs ev).length = if isRootSolvedB st.rootId msg then 1 else 0) ∧
    (∀ (env : Env) (stdlib : StdLib) (fuel : Nat) (st : State) (msgs : List Msg)
        (res : LoopResult) (k : Nat),
      loadLoop env stdlib fuel st msgs = (res, k) → res.isDone = true →
      env.msgTxAlive = true →
      (∀ m ∈ msgs, m.isFinished = false) →
      countRootSolved st.rootId msgs = 1 →
      k = 1) := by
  refine ⟨fun env stdlib st a b c => rfl, fun env stdlib fuel st a b c rest => rfl,
    fun env stdlib st msg st' ev hok halive => (upd_sent hok halive).1,
    fun env stdlib fuel st msgs res k h hdone halive hnf hcount => ?_⟩
  rw [loop_count halive fuel st msgs res k h hdone, takeUntilFinished_eq_self hnf,
    hcount]

/-- Witness for C9: running the loop on the single root `Solved` message
enqueues exactly one `Finished` message. -/
theorem c9_single_finished_witness :
    (loadLoop env2 stdlib0 3 (emptyState 0) [.solved 0 0 sm0 true]).2 = 1 :=
  c9_single_finished.2.2.2 env2 stdlib0 3 (emptyState 0) [.solved 0 0 sm0 true]
    (loadLoop env2 stdlib0 3 (emptyState 0) [.solved 0 0 sm0 true]).1
    (loadLoop env2 stdlib0 3 (emptyState 0) [.solved 0 0 sm0 true]).2
    rfl rfl rfl (by decide) rfl

/-! Lemmas about straight-line runs, leading to claim C10. -/

theorem runUpdates_wfs_persist {env : Env} {stdlib : StdLib} :
    ∀ {msgs : List Msg} {s sN : State} {ev : List Event},
    runUpdates env stdlib s msgs = some (sN, ev) →
    ∀ k, lookupM s.waitingForSolve k ≠ none → lookupM sN.waitingForSolve k ≠ none := by
  intro msgs
  induction msgs with
  | nil =>
    intro s sN ev h k hk
    simp only [runUpdates] at h
    injection h with h
    injection h with h1 h2
    rw [← h1]
    exact hk
  | cons m rest ih =>
    intro s sN ev h k hk
    simp only [runUpdates] at h
    split at h
    · rename_i st1 ev1 hupd
      split at h
      · rename_i st2 ev2 hrec
        injection h with h
        injection h with h1 h2
        rw [← h1]
        exact ih hrec k (upd_wfs_persist hupd k hk)
      · cases h
    · cases h

theorem runUpdates_push_wfs {env : Env} {stdlib : StdLib} :
    ∀ {msgs : List Msg} {s sN : State} {evAll : List Event},
    runUpdates env stdlib s msgs = some (sN, evAll) →
    ∀ {t : BuildTask} {mid : ModuleId}, Event.pushTask t ∈ evAll →
      t.pacModuleId = some mid → lookupM sN.waitingForSolve mid ≠ none := by
  intro msgs
  induction msgs with
  | nil =>
    intro s sN evAll h t mid hmem hpac
    simp only [runUpdates] at h
    injection h with h
    injection h with h1 h2
    rw [← h2] at hmem
    cases hmem
  | cons m rest ih =>
    intro s sN evAll h t mid hmem hpac
    simp only [runUpdates] at h
    split at h
    · rename_i st1 ev1 hupd
      split at h
      · rename_i st2 ev2 hrec
        injection h with h
        injection h with h1 h2
        rw [← h2] at hmem
        rw [← h1] at *
        rcases List.mem_append.mp hmem with hmem1 | hmem2
        · exact runUpdates_wfs_persist hrec mid (upd_push_wfs hupd hmem1 hpac)
        · exact ih hrec hmem2 hpac
      · cases h
    · cases h

theorem uc_panic_msg {st : State} {mc : ModuleCan} {d : Nat} {im : List ModuleId}
    {src con : Nat} {ii : IdentIds} {pr : List Nat} {vs : Nat} {msg : String}
    {w : List ModuleId}
    (h : updateConstrained st mc d im src con ii pr vs = .panicked msg)
    (hw : lookupM st.waitingForSolve mc.moduleId = some w) :
    msg = "add a task for solving this module." := by
  unfold updateConstrained at h
  split at h
  · rename_i heq
    rw [hw] at heq
    cases heq
  · rename_i waiting heq
    split at h
    · injection h with hs
      exact hs.symm
    · cases h

/-- C10: if a straight-line run of coordinator transitions ever pushed a
`ParseAndConstrain` task for module `mid` (every such push goes through
`build_parse_and_constrain_task`, which inserts `waiting_for_solve[mid]`
before returning the task, and no transition ever removes a
`waiting_for_solve` key), then the final state has an entry for `mid`, so
processing a `Constrained` message for `mid` cannot reach the
`waiting_for_solve` lookup's panic branch. -/
theorem c10_constrained_lookup_safe (env : Env) (stdlib : StdLib) (s0 : State)
    (msgs : List Msg) (sN : State) (evAll : List Event) (mid : ModuleId)
    (hrun : runUpdates env stdlib s0 msgs = some (sN, evAll))
    (hpush : pacPushedFor evAll mid) :
    lookupM sN.waitingForSolve mid ≠ none ∧
    (∀ (mc : ModuleCan) (d : Nat) (im : List ModuleId) (src con : Nat)
        (ii : IdentIds) (pr : List Nat) (vs : Nat),
      mc.moduleId = mid →
      update env stdlib sN (.constrained mc d im src con ii pr vs)
        ≠ .panicked "Could not find module ID in waiting_for_solve") := by
  obtain ⟨t, hmem, hpac⟩ := hpush
  have hlook := runUpdates_push_wfs hrun hmem hpac
  refine ⟨hlook, ?_⟩
  intro mc d im src con ii pr vs hmid hcontra
  obtain ⟨w, hw⟩ := Option.ne_none_iff_exists'.mp hlook
  have hmsg := uc_panic_msg hcontra (by rw [hmid]; exact hw)
  exact absurd hmsg (by decide)

/-- Witness for C10: the run that processes `Header(hLeaf)` pushes the
`ParseAndConstrain` task for module 1, and the resulting state indeed holds
a `waiting_for_solve` entry for module 1. -/
theorem c10_constrained_lookup_safe_witness :
    lookupM hLeafState.waitingForSolve 1 ≠ none :=
  (c10_constrained_lookup_safe env2 stdlib0 (emptyState 0) [.header hLeaf]
    hLeafState [Event.pushTask hLeafTask] 1 rfl
    ⟨hLeafTask, List.mem_singleton.mpr rfl, rfl⟩).1

/-- C2: in a `Header(h)` transition (with a well-formed parked-header table
in which `h` is not itself parked), the still-needed header set is exactly
the deps not yet in `headers_parsed` (after recording `h` itself); when it
is empty a `ParseAndConstrain` task for `h` is pushed in that same
transition and `h` is never placed in `unparsed_modules`; otherwise no
`ParseAndConstrain` task for `h` is pushed, `h` is parked in
`unparsed_modules`, `waiting_for_headers[h.module_id]` is set to exactly
the missing set, and the module is registered as a header listener on
every missing dep. -/
theorem c2_header_barrier (env : Env) (stdlib : StdLib) (s : State)
    (h : ModuleHeader) (s' : State) (ev : List Event)
    (hok : update env stdlib s (.header h) = .ok (s', ev))
    (hU : lookupM s.unparsedModules h.moduleId = none)
    (hWF : ∀ l hdr, lookupM s.unparsedModules l = some hdr → hdr.moduleId = l) :
    (∀ d, d ∈ headersNeededOf s h ↔
      (d ∈ h.depsByName.map (·.2) ∧ d ∉ insSet s.headersParsed h.moduleId)) ∧
    (headersNeededOf s h = [] →
      (∃ t, Event.pushTask t ∈ ev ∧ taskIsPACFor t h) ∧
      lookupM s'.unparsedModules h.moduleId = none) ∧
    (headersNeededOf s h ≠ [] →
      (∀ t, Event.pushTask t ∈ ev → ¬ taskIsPACFor t h) ∧
      lookupM s'.unparsedModules h.moduleId = some h ∧
      lookupM s'.waitingForHeaders h.moduleId = some (headersNeededOf s h) ∧
      (∀ d ∈ headersNeededOf s h,
        h.moduleId ∈ (lookupM s'.headerListeners d).getD [])) := by
  obtain ⟨st3, evL, hpl, hcase⟩ := uh_cases hok
  have hpre_unparsed : (headerPre s h).unparsedModules = s.unparsedModules := rfl
  have hpd := pd_fields h.depsByName st3
  refine ⟨?_, ?_, ?_⟩
  · intro d
    simp [headersNeededOf, mem_mkSet, List.mem_filter]
  · intro hneed
    rcases hcase with ⟨-, exSyms, task, wfs', -, hb, hst, hev⟩ | ⟨hne, -, -⟩
    · constructor
      · obtain ⟨⟨dids, htask⟩, -⟩ := bpc_ok hb
        refine ⟨task, ?_, stdlib.mode, (processDeps st3 h.depsByName).1.arcModules,
          dids, exSyms, htask⟩
        rw [hev]
        simp
      · rw [hst]
        show lookupM (processDeps st3 h.depsByName).1.unparsedModules h.moduleId = none
        rw [hpd.2.2.1]
        apply (pls_ok hpl).2.2.2.2.2.2.2.2.2.1
        rw [hpre_unparsed]
        exact hU
    · rw [hneed] at hne
      cases hne
  · intro hneed
    rcases hcase with ⟨hemp, -, -, -, -, -, -, -⟩ | ⟨hne, hst, hev⟩
    · exact absurd (List.isEmpty_iff.mp hemp) hneed
    · refine ⟨?_, ?_, ?_, ?_⟩
      · intro t hmem hpac
        obtain ⟨mode', mids', dids', exs', htask⟩ := hpac
        rw [hev] at hmem
        rcases List.mem_append.mp hmem with hmemL | hmemD
        · obtain ⟨mid, hmid, hnh⟩ :=
            pls_push_not_home hpl (by rw [hpre_unparsed]; exact hWF)
              (by rw [hpre_unparsed]; exact hU) t hmemL
          rw [htask] at hmid
          simp only [BuildTask.pacModuleId, Option.some.injEq] at hmid
          exact hnh hmid.symm
        · obtain ⟨loads, hevD, hall⟩ := pd_events h.depsByName st3
          rw [hevD] at hmemD
          obtain ⟨t', ht', heq⟩ := List.mem_map.mp hmemD
          injection heq with heq
          subst heq
          have := hall t' ht'
          rw [htask] at this
          cases this
      · rw [hst]
        show lookupM (registerHeaderListeners _ h.moduleId
          (headersNeededOf s h)).unparsedModules h.moduleId = some h
        rw [(rhl_fields h.moduleId (headersNeededOf s h) _).2.2.1]
        show lookupM (insertM (processDeps st3 h.depsByName).1.unparsedModules
          h.moduleId h) h.moduleId = some h
        rw [lookupM_insertM]
        simp
      · rw [hst]
        show lookupM (insertM _ h.moduleId (headersNeededOf s h)) h.moduleId
          = some (headersNeededOf s h)
        rw [lookupM_insertM]
        simp
      · intro d hd
        rw [hst]
        exact rhl_adds h.moduleId (headersNeededOf s h) _ d hd

/-- Witness for C2: processing the import-free header `hLeaf` from the fresh
state pushes its `ParseAndConstrain` task in the same transition and never
parks it. -/
theorem c2_header_barrier_witness :
    update env2 stdlib0 (emptyState 0) (.header hLeaf)
      = .ok (hLeafState, [Event.pushTask hLeafTask]) ∧
    ((∃ t, Event.pushTask t ∈ [Event.pushTask hLeafTask] ∧ taskIsPACFor t hLeaf) ∧
      lookupM hLeafState.unparsedModules hLeaf.moduleId = none) :=
  ⟨rfl,
    (c2_header_barrier env2 stdlib0 (emptyState 0) hLeaf hLeafState
      [Event.pushTask hLeafTask] rfl rfl
      (by intro l hdr hc; simp [lookupM] at hc)).2.1 rfl⟩

/-- C4 counterexample: from the fresh state, `Header(hDep)` pushes a
`LoadModule` task for the newly discovered dep but sends zero `TaskAdded`
signals in that transition, although there are two workers — so this push
is not followed by one `TaskAdded` per worker. -/
theorem c4_cex :
    update env2 stdlib0 (emptyState 0) (.header hDep)
      = .ok (hDepState, [.pushTask (.loadModule "Dep")]) ∧
    pushCount [Event.pushTask (.loadModule "Dep")] = 1 ∧
    taskAddedCount [Event.pushTask (.loadModule "Dep")] = 0 ∧
    env2.numWorkers = 2 ∧
    taskAddedCount [Event.pushTask (.loadModule "Dep")]
      ≠ env2.numWorkers * pushCount [Event.pushTask (.loadModule "Dep")] :=
  ⟨rfl, rfl, rfl, rfl, by decide⟩

/-- C4 as amended: within one `update` transition, only the
`ParseAndConstrain` pushes performed when a header listener's barrier
empties are each immediately followed by exactly one `TaskAdded` signal per
worker; the `LoadModule` pushes and the direct `ParseAndConstrain` push are
followed by no `TaskAdded` signal in that transition (and the only other
events are channel sends). -/
theorem c4_taskadded_only_listener_dispatch (env : Env) (stdlib : StdLib)
    (st : State) (msg : Msg) (st' : State) (ev : List Event)
    (hok : update env stdlib st msg = .ok (st', ev)) :
    ∃ (pacs loads : List BuildTask) (finalT : Option BuildTask) (sent : List Event),
      ev = pacs.flatMap
          (fun t => Event.pushTask t :: List.replicate env.numWorkers Event.taskAdded)
        ++ loads.map Event.pushTask ++ (finalT.map Event.pushTask).toList ++ sent ∧
      (∀ t ∈ pacs, t.isPAC = true) ∧
      (∀ t ∈ loads, t.isLoad = true) ∧
      (∀ t ∈ finalT, t.isPAC = true) ∧
      (∀ e ∈ sent, ∃ d mm, e = Event.sentFinished d mm) := by
  cases msg with
  | header h =>
    obtain ⟨st3, evL, hpl, hcase⟩ := uh_cases hok
    obtain ⟨pacs, hevL, hpacs⟩ := (pls_ok hpl).2.2.2.2.2.2.2.2.2.2.2
    obtain ⟨loads, hevD, hloads⟩ := pd_events h.depsByName st3
    rcases hcase with ⟨-, exSyms, task, wfs', -, hb, -, hev⟩ | ⟨-, -, hev⟩
    · refine ⟨pacs, loads, some task, [], ?_, hpacs, hloads, ?_, ?_⟩
      · rw [hev, hevL, hevD]
        simp [List.append_assoc]
      · intro t ht
        obtain ⟨⟨dids, htask⟩, -⟩ := bpc_ok hb
        simp only [Option.mem_def, Option.some.injEq] at ht
        rw [← ht, htask]
        rfl
      · intro e he
        cases he
    · refine ⟨pacs, loads, none, [], ?_, hpacs, hloads, ?_, ?_⟩
      · rw [hev, hevL, hevD]
        simp
      · intro t ht
        cases ht
      · intro e he
        cases he
  | constrained mc d im src con ii pr vs =>
    obtain ⟨-, -, -, -, hev⟩ := uc_cases hok
    refine ⟨[], [], none, [], ?_, ?_, ?_, ?_, ?_⟩
    · rw [hev]; rfl
    · simp
    · simp
    · intro t ht; cases ht
    · intro e he; cases he
  | solved src mid sm uniq =>
    rcases us_cases hok with ⟨-, -, -, hev⟩ | ⟨-, hpsl⟩
    · refine ⟨[], [], none, ev, ?_, ?_, ?_, ?_, ?_⟩
      · simp
      · simp
      · simp
      · intro t ht; cases ht
      · intro e he
        rw [hev] at he
        rcases List.mem_cons.mp he with rfl | hc
        · exact ⟨env.msgTxAlive, .finished 0 sm.exposedVarsBySymbol src, rfl⟩
        · cases hc
    · refine ⟨[], [], none, [], ?_, ?_, ?_, ?_, ?_⟩
      · rw [(psl_ok mid hpsl).1]; rfl
      · simp
      · simp
      · intro t ht; cases ht
      · intro e he; cases he
  | finished a b c => cases hok

/-- Witness for C4 (amended): the direct `ParseAndConstrain` push for
`hLeaf` decomposes with no listener-dispatch pushes and hence no
`TaskAdded` signals. -/
theorem c4_taskadded_only_listener_dispatch_witness :
    update env2 stdlib0 (emptyState 0) (.header hLeaf)
      = .ok (hLeafState, [Event.pushTask hLeafTask]) ∧
    (∃ (pacs loads : List BuildTask) (finalT : Option BuildTask) (sent : List Event),
      [Event.pushTask hLeafTask] = pacs.flatMap
          (fun t => Event.pushTask t :: List.replicate env2.numWorkers Event.taskAdded)
        ++ loads.map Event.pushTask ++ (finalT.map Event.pushTask).toList ++ sent ∧
      (∀ t ∈ pacs, t.isPAC = true) ∧
      (∀ t ∈ loads, t.isLoad = true) ∧
      (∀ t ∈ finalT, t.isPAC = true) ∧
      (∀ e ∈ sent, ∃ d mm, e = Event.sentFinished d mm)) :=
  ⟨rfl, c4_taskadded_only_listener_dispatch env2 stdlib0 (emptyState 0)
    (.header hLeaf) hLeafState [Event.pushTask hLeafTask] rfl⟩

end RocLoad
